import Mathlib

/-!
Verification of the event-durability pipeline of the rrweb session recorder
(`RRWebDBManager` in `src/components/RRWebRecorder.tsx`), as a shallow
embedding: JavaScript values are modelled by an inductive `Json` type,
the IndexedDB `events` object store by an explicit record list with an
auto-increment key counter, and the asynchronous lifecycle of the manager
by a labelled transition system whose suspension points are exactly the
`await` boundaries of the source.
-/

set_option maxHeartbeats 1000000

/- ===================================================================
   Part 1: JavaScript/JSON value model.

   `rrweb` events are opaque structured data (`event: any` in the source);
   the manager never inspects them, and `exportSession` serializes them with
   `JSON.stringify(rrwebEvents, null, 2)`.  We model such values by a JSON
   value type (numbers restricted to integers, which covers the integer
   `type`/`timestamp`/`delay` fields actually produced by the capture
   library; object member order is insertion order, as in JS).
   `Json`, `JsonList` and `JsonMembers` are mutually inductive so that all
   functions over them are structural recursions.
   =================================================================== -/

mutual

inductive Json where
  | null : Json
  | bool (b : Bool) : Json
  | num (n : Int) : Json
  | str (s : String) : Json
  | arr (elems : JsonList) : Json
  | obj (members : JsonMembers) : Json
  deriving DecidableEq

inductive JsonList where
  | nil : JsonList
  | cons (hd : Json) (tl : JsonList) : JsonList
  deriving DecidableEq

inductive JsonMembers where
  | nil : JsonMembers
  | cons (k : String) (v : Json) (tl : JsonMembers) : JsonMembers
  deriving DecidableEq

end

/-- Convert a Lean list of values into the embedded JSON array spine. -/
def toJsonList : List Json → JsonList
  | [] => .nil
  | x :: xs => .cons x (toJsonList xs)

/-- A JS value as stored in an IndexedDB record field: either a proper
JSON-like value or `undefined` (field absent).  Needed because
`getAllSessions` defensively filters records whose `sessionId` is missing
or not a string. -/
inductive JsVal where
  | undef : JsVal
  | val (j : Json) : JsVal
  deriving DecidableEq

/- ===================================================================
   Part 2: serialization, mirroring `JSON.stringify(value, null, 2)`.

   The source exports with `JSON.stringify(rrwebEvents, null, 2)`: a gap of
   two spaces, hence ECMA-262 pretty-printing — nonempty arrays/objects
   put every element on its own line indented by the accumulated indent
   plus the gap, and a `": "` separator after object keys.  Characters are
   escaped as `QuoteJSONString` does: quote, backslash, the short escapes
   b/t/n/f/r, and `\u00xx` for remaining control characters.
   =================================================================== -/

/-- Lower-case hexadecimal digit for `n < 16`. -/
def hexDigitChar (n : Nat) : Char :=
  if n < 10 then Char.ofNat (48 + n) else Char.ofNat (87 + n)

/-- JSON escaping of one character, as in ECMA-262 `QuoteJSONString`. -/
def escapeChar (c : Char) : List Char :=
  if c = '\x22' then ['\\', '\x22']
  else if c = '\\' then ['\\', '\\']
  else if c = '\x08' then ['\\', 'b']
  else if c = '\x09' then ['\\', 't']
  else if c = '\x0a' then ['\\', 'n']
  else if c = '\x0c' then ['\\', 'f']
  else if c = '\x0d' then ['\\', 'r']
  else if c.toNat < 32 then
    ['\\', 'u', '0', '0', hexDigitChar (c.toNat / 16), hexDigitChar (c.toNat % 16)]
  else [c]

/-- JSON escaping of a character sequence. -/
def escapeList : List Char → List Char
  | [] => []
  | c :: cs => escapeChar c ++ escapeList cs

/-- A JSON string literal: quote, escaped content, quote. -/
def quoteChars (l : List Char) : List Char :=
  '\x22' :: (escapeList l ++ ['\x22'])

/-- Decimal digits of a natural number (most significant first). -/
def natDigits (n : Nat) : List Char :=
  if h : n < 10 then [Char.ofNat (48 + n)]
  else natDigits (n / 10) ++ [Char.ofNat (48 + n % 10)]
decreasing_by
  exact Nat.div_lt_self (by omega) (by omega)

/-- Decimal notation of an integer, as JS prints integral numbers. -/
def intChars (n : Int) : List Char :=
  if n < 0 then '-' :: natDigits n.natAbs else natDigits n.toNat

/-- The two-space gap of `JSON.stringify(value, null, 2)`. -/
def gap2 : List Char := [' ', ' ']

mutual

/-- Serialize a value at accumulated indent `ind`, as
`JSON.stringify(value, null, 2)` does below the top level. -/
def serValue (ind : List Char) : Json → List Char
  | .null => ("null").data
  | .bool true => ("true").data
  | .bool false => ("false").data
  | .num n => intChars n
  | .str s => quoteChars s.data
  | .arr .nil => ['[', ']']
  | .arr (.cons x xs) =>
      '[' :: '\x0a' :: (ind ++ gap2) ++ serValue (ind ++ gap2) x
        ++ serElems (ind ++ gap2) xs ++ '\x0a' :: (ind ++ [']'])
  | .obj .nil => ['\x7b', '\x7d']
  | .obj (.cons k v kvs) =>
      '\x7b' :: '\x0a' :: (ind ++ gap2)
        ++ (quoteChars k.data ++ ':' :: ' ' :: serValue (ind ++ gap2) v)
        ++ serMembers (ind ++ gap2) kvs ++ '\x0a' :: (ind ++ ['\x7d'])
termination_by structural j => j

/-- The second and later array elements, each preceded by a comma,
newline and indent. -/
def serElems (ind : List Char) : JsonList → List Char
  | .nil => []
  | .cons x xs => ',' :: '\x0a' :: ind ++ serValue ind x ++ serElems ind xs
termination_by structural l => l

/-- The second and later object members, each as quoted key, colon,
space, value. -/
def serMembers (ind : List Char) : JsonMembers → List Char
  | .nil => []
  | .cons k v kvs =>
      ',' :: '\x0a' :: ind ++ (quoteChars k.data ++ ':' :: ' ' :: serValue ind v)
        ++ serMembers ind kvs
termination_by structural l => l

end

/-- One object member: quoted key, colon, space, value. -/
def serMember (ind : List Char) (k : String) (v : Json) : List Char :=
  quoteChars k.data ++ ':' :: ' ' :: serValue ind v

/-- `JSON.stringify(j, null, 2)`: top-level serialization with empty
initial indent. -/
def stringify2 (j : Json) : String :=
  String.mk (serValue [] j)

/- ===================================================================
   Part 3: a JSON parser (the consumer side of the round-trip claim:
   the artifact is "directly consumable by any compliant replay tool",
   i.e. read back with `JSON.parse`).  Recursive-descent on `List Char`
   with a fuel parameter bounding the nesting/element count; numbers are
   integers, matching the serializer.
   =================================================================== -/

/-- JSON whitespace. -/
def isWsChar (c : Char) : Bool :=
  c = ' ' || c = '\x0a' || c = '\x0d' || c = '\x09'

/-- Drop leading JSON whitespace. -/
def skipWs : List Char → List Char
  | [] => []
  | c :: cs => if isWsChar c then skipWs cs else c :: cs

/-- ASCII decimal digit test. -/
def isDigitChar (c : Char) : Bool :=
  decide (48 ≤ c.toNat) && decide (c.toNat ≤ 57)

/-- Numeric value of a decimal digit character. -/
def digitVal (c : Char) : Nat := c.toNat - 48

/-- Value of a hexadecimal digit character (either case), if any. -/
def hexVal (c : Char) : Option Nat :=
  if 48 ≤ c.toNat ∧ c.toNat ≤ 57 then some (c.toNat - 48)
  else if 97 ≤ c.toNat ∧ c.toNat ≤ 102 then some (c.toNat - 87)
  else if 65 ≤ c.toNat ∧ c.toNat ≤ 70 then some (c.toNat - 55)
  else none

/-- Maximal-munch run of decimal digits, folded into `acc`. -/
def parseDigitsGo (acc : Nat) : List Char → Nat × List Char
  | [] => (acc, [])
  | c :: cs =>
    if isDigitChar c then parseDigitsGo (acc * 10 + digitVal c) cs
    else (acc, c :: cs)

/-- A nonempty run of decimal digits. -/
def parseDigits (cs : List Char) : Option (Nat × List Char) :=
  match cs with
  | [] => none
  | c :: _ => if isDigitChar c then some (parseDigitsGo 0 cs) else none

/-- Decoding of a single-character escape (everything but `\u`). -/
def unescapeChar (e : Char) : Option Char :=
  if e = '\x22' then some '\x22'
  else if e = '\\' then some '\\'
  else if e = '/' then some '/'
  else if e = 'b' then some '\x08'
  else if e = 'f' then some '\x0c'
  else if e = 'n' then some '\x0a'
  else if e = 'r' then some '\x0d'
  else if e = 't' then some '\x09'
  else none

/-- Prepend a decoded character to a string-body parse result. -/
def consCont (c : Char) : Option (List Char × List Char) → Option (List Char × List Char)
  | some (l, r) => some (c :: l, r)
  | none => none

/-- Parse the body of a string literal after the opening quote, up to and
including the closing quote; returns the decoded content and the rest. -/
def parseStringBody : List Char → Option (List Char × List Char)
  | [] => none
  | c :: cs =>
    if c = '\x22' then some ([], cs)
    else if c = '\\' then
      match cs with
      | [] => none
      | e :: cs2 =>
        if e = 'u' then
          match cs2 with
          | h1 :: h2 :: h3 :: h4 :: cs3 =>
            match hexVal h1, hexVal h2, hexVal h3, hexVal h4 with
            | some a, some b, some c3, some d =>
              let code := ((a * 16 + b) * 16 + c3) * 16 + d
              if code.isValidChar then consCont (Char.ofNat code) (parseStringBody cs3)
              else none
            | _, _, _, _ => none
          | _ => none
        else
          match unescapeChar e with
          | some c2 => consCont c2 (parseStringBody cs2)
          | none => none
    else consCont c (parseStringBody cs)

/-- Match an exact character sequence. -/
def expectChars : List Char → List Char → Option (List Char)
  | [], cs => some cs
  | _ :: _, [] => none
  | p :: ps, c :: cs => if c = p then expectChars ps cs else none

/-- Append one element at the tail of a JSON array spine. -/
def jlAppend : JsonList → Json → JsonList
  | .nil, v => .cons v .nil
  | .cons x xs, v => .cons x (jlAppend xs v)

/-- Append one member at the tail of a JSON object spine. -/
def jmAppend : JsonMembers → String → Json → JsonMembers
  | .nil, k, v => .cons k v .nil
  | .cons k0 v0 tl, k, v => .cons k0 v0 (jmAppend tl k v)

mutual

/-- Parse one JSON value (after skipping leading whitespace). -/
def parseVal : Nat → List Char → Option (Json × List Char)
  | 0, _ => none
  | fuel + 1, cs =>
    match skipWs cs with
    | [] => none
    | c :: r =>
      if c = 'n' then
        match expectChars ['u', 'l', 'l'] r with
        | some r2 => some (.null, r2)
        | none => none
      else if c = 't' then
        match expectChars ['r', 'u', 'e'] r with
        | some r2 => some (.bool true, r2)
        | none => none
      else if c = 'f' then
        match expectChars ['a', 'l', 's', 'e'] r with
        | some r2 => some (.bool false, r2)
        | none => none
      else if c = '\x22' then
        match parseStringBody r with
        | some (l, r2) => some (.str (String.mk l), r2)
        | none => none
      else if c = '[' then
        match skipWs r with
        | [] => none
        | c2 :: r2 => if c2 = ']' then some (.arr .nil, r2) else parseElems fuel .nil (c2 :: r2)
      else if c = '\x7b' then
        match skipWs r with
        | [] => none
        | c2 :: r2 => if c2 = '\x7d' then some (.obj .nil, r2) else parseMembers fuel .nil (c2 :: r2)
      else if c = '-' then
        match parseDigits r with
        | some (n, r2) => some (.num (-(n : Int)), r2)
        | none => none
      else if isDigitChar c then
        match parseDigits (c :: r) with
        | some (n, r2) => some (.num (n : Int), r2)
        | none => none
      else none

/-- Parse the elements of a nonempty array, accumulating into `acc`. -/
def parseElems : Nat → JsonList → List Char → Option (Json × List Char)
  | 0, _, _ => none
  | fuel + 1, acc, cs =>
    match parseVal fuel cs with
    | none => none
    | some (v, r) =>
      match skipWs r with
      | [] => none
      | c :: r2 =>
        if c = ',' then parseElems fuel (jlAppend acc v) r2
        else if c = ']' then some (.arr (jlAppend acc v), r2)
        else none

/-- Parse the members of a nonempty object, accumulating into `acc`. -/
def parseMembers : Nat → JsonMembers → List Char → Option (Json × List Char)
  | 0, _, _ => none
  | fuel + 1, acc, cs =>
    match skipWs cs with
    | [] => none
    | c :: r =>
      if c = '\x22' then
        match parseStringBody r with
        | none => none
        | some (k, r1) =>
          match skipWs r1 with
          | [] => none
          | c1 :: r2 =>
            if c1 = ':' then
              match parseVal fuel r2 with
              | none => none
              | some (v, r3) =>
                match skipWs r3 with
                | [] => none
                | c2 :: r4 =>
                  if c2 = ',' then parseMembers fuel (jmAppend acc (String.mk k) v) r4
                  else if c2 = '\x7d' then some (.obj (jmAppend acc (String.mk k) v), r4)
                  else none
            else none
      else none

end

/-- `JSON.parse`: parse a complete document (only whitespace may follow
the single top-level value). -/
def Json.parse (s : String) : Option Json :=
  match parseVal (s.data.length + 1) s.data with
  | some (j, r) => if skipWs r = [] then some j else none
  | none => none

/- ===================================================================
   Part 4: the IndexedDB `events` object store and the manager state.

   `openDatabase` creates one object store `events` with
   `keyPath: 'id', autoIncrement: true` and non-unique indices on
   `sessionId` and `timestamp`.  We model the store as the list of its
   records in insertion order together with the auto-increment key
   generator (IndexedDB generators start at 1).  `getAll()` on a store or
   index returns records in ascending key order; for a non-unique index,
   records with the same index key are ordered by primary key.
   =================================================================== -/

/-- One persisted record, as written by `saveEventToDatabase`:
`store.add({ data: event, timestamp: Date.now(), sessionId: this.getSessionId() })`
plus the store-assigned `id` key. -/
structure StoredRecord where
  id : Nat
  data : Json
  timestamp : Int
  sessionId : JsVal
  deriving DecidableEq

/-- The `events` object store: auto-increment key generator plus records
in insertion order. -/
structure EventsStore where
  nextId : Nat
  records : List StoredRecord
  deriving DecidableEq

/-- A freshly created store (IndexedDB key generators start at 1). -/
def freshStore : EventsStore := { nextId := 1, records := [] }

/-- `store.add({data: event, timestamp, sessionId})`: the record gets the
next auto-increment key. -/
def addRecord (st : EventsStore) (e : Json) (ts : Int) (sid : String) : EventsStore :=
  { nextId := st.nextId + 1
    records := st.records ++ [{ id := st.nextId, data := e, timestamp := ts,
                                sessionId := JsVal.val (Json.str sid) }] }

/-- Insert into a list sorted by ascending `id` (stable: an inserted
record goes before records with the same id that follow it). -/
def insertById (r : StoredRecord) : List StoredRecord → List StoredRecord
  | [] => [r]
  | x :: xs => if r.id ≤ x.id then r :: x :: xs else x :: insertById r xs

/-- Sort records by ascending `id` — how IndexedDB `getAll` yields records
of a store keyed by `id` (and of a non-unique index within one index key). -/
def sortById (l : List StoredRecord) : List StoredRecord :=
  l.foldr insertById []

/-- Does this record match index key `s` on the `sessionId` index?
(Records whose `sessionId` is not a string never carry the string key `s`.) -/
def sessionMatches (v : JsVal) (s : String) : Bool :=
  match v with
  | .val (.str t) => t = s
  | _ => false

/-- `store.getAll()`: every record, ascending `id`. -/
def storeGetAll (st : EventsStore) : List StoredRecord :=
  sortById st.records

/-- `store.index('sessionId').getAll(s)`: the records whose `sessionId`
equals `s`, ascending primary key. -/
def storeIndexGetAll (st : EventsStore) (s : String) : List StoredRecord :=
  sortById (st.records.filter (fun r => sessionMatches r.sessionId s))

/-- The manager's mutable fields: `db`, `isInitializing`, `isReady`,
`eventQueue`, `maxQueueSize` (the capacity bound, 1000 in the source). -/
structure MState where
  db : Option EventsStore
  isInitializing : Bool
  isReady : Bool
  eventQueue : List Json
  maxQueueSize : Nat
  deriving DecidableEq

/-- The manager as constructed (`new RRWebDBManager()`). -/
def initialMState : MState :=
  { db := none, isInitializing := false, isReady := false,
    eventQueue := [], maxQueueSize := 1000 }

/-- JS `arr.slice(-n)`.  For `n = 0`, `slice(-0)` is `slice(0)`: the whole
array.  Otherwise the last `min n (length)` elements. -/
def jsSliceLast (q : List Json) (n : Nat) : List Json :=
  if n = 0 then q else q.drop (q.length - n)

/-- The overflow trim of `saveEvent`'s queue path:
`if (queue.length > maxQueueSize) queue = queue.slice(-maxQueueSize)`. -/
def trimToMax (q : List Json) (max : Nat) : List Json :=
  if q.length > max then jsSliceLast q max else q

/-- `saveEvent(event)` with the outcome of the (awaited) write supplied by
the environment: while not ready (or without a db handle) the event is
queued with the overflow trim; while ready, a successful write appends a
record and a failed write pushes the event onto the queue (without trim). -/
def saveEventPure (m : MState) (e : Json) (ts : Int) (sid : String) (writeOk : Bool) : MState :=
  if !m.isReady || m.db.isNone then
    { m with eventQueue := trimToMax (m.eventQueue ++ [e]) m.maxQueueSize }
  else if writeOk then
    { m with db := m.db.map (fun st => addRecord st e ts sid) }
  else
    { m with eventQueue := m.eventQueue ++ [e] }

/-- The loop of `processEventQueue` over the snapshot of the queue: write
each event in order; on the first failure, push that event back and stop
(the later events of the snapshot are not pushed back). -/
def drainGo (writeOk : Json → Bool) (ts : Int) (sid : String) :
    EventsStore → List Json → EventsStore × List Json
  | st, [] => (st, [])
  | st, e :: rest =>
    if writeOk e then drainGo writeOk ts sid (addRecord st e ts sid) rest
    else (st, [e])

/-- `processEventQueue()`: no-op on an empty queue; otherwise snapshot the
queue, clear it, and run the write loop.  Returns the store and the new
queue contents. -/
def processEventQueue (writeOk : Json → Bool) (ts : Int) (sid : String)
    (st : EventsStore) (q : List Json) : EventsStore × List Json :=
  if q.isEmpty then (st, q) else drainGo writeOk ts sid st q

/-- `getAllEvents()`: throws (`none`) unless ready with an open handle. -/
def getAllEvents (m : MState) : Option (List StoredRecord) :=
  match m.db, m.isReady with
  | some st, true => some (storeGetAll st)
  | _, _ => none

/-- `getEventsBySession(sessionId)`: the `sessionId`-index query. -/
def getEventsBySession (m : MState) (s : String) : Option (List StoredRecord) :=
  match m.db, m.isReady with
  | some st, true => some (storeIndexGetAll st s)
  | _, _ => none

/-- JS `array.indexOf(x)` specialised to the use in `getAllSessions`:
index of the first occurrence; when `x` is absent the result is the
length, which like `-1` differs from every valid index. -/
def jsIndexOf (l : List String) (x : String) : Nat :=
  match l with
  | [] => 0
  | y :: ys => if y = x then 0 else jsIndexOf ys x + 1

/-- `.filter((sessionId, index, array) => array.indexOf(sessionId) === index)`:
keep exactly the first occurrence of each value. -/
def uniqueFirst (l : List String) : List String :=
  ((l.enum.filter (fun p => jsIndexOf l p.2 == p.1)).map (fun p => p.2))

/-- `.map(event => event.sessionId).filter(sessionId => sessionId && typeof sessionId === 'string')`:
the `sessionId` fields that are truthy strings (a non-string, `null`,
missing, or empty-string field is dropped). -/
def keepNonEmptyStrings : List JsVal → List String
  | [] => []
  | v :: vs =>
    match v with
    | .val (.str s) => if s = ("") then keepNonEmptyStrings vs else s :: keepNonEmptyStrings vs
    | _ => keepNonEmptyStrings vs

/-- The session-id extraction of `getAllSessions` from the raw records. -/
def sessionsOfRecords (rs : List StoredRecord) : List String :=
  uniqueFirst (keepNonEmptyStrings (rs.map (fun r => r.sessionId)))

/-- `getAllSessions()`: scan `store.getAll()` and extract the distinct
session ids, first-seen order. -/
def getAllSessions (m : MState) : Option (List String) :=
  match m.db, m.isReady with
  | some st, true => some (sessionsOfRecords (storeGetAll st))
  | _, _ => none

/-- The observable outcome of `exportSession`. -/
inductive ExportOutcome where
  | alertNoEvents : ExportOutcome
  | downloaded (filename : String) (content : String) : ExportOutcome
  | alertFailed : ExportOutcome
  deriving DecidableEq

/-- `sessionId.substring(0, 15)`. -/
def jsSubstring15 (s : String) : String :=
  String.mk (s.data.take 15)

/-- The artifact filename `rrweb-session-<first 15 chars>-<date>.json`. -/
def exportFilename (s today : String) : String :=
  ("rrweb-session-") ++ jsSubstring15 s ++ ("-") ++ today ++ (".json")

/-- `exportSession(sessionId)`: query the session's records; zero matches
alerts "No events found for this session" and produces nothing; otherwise
the artifact is `JSON.stringify(events.map(e => e.data), null, 2)`;
a thrown query error (not ready) is caught and alerts a failure. -/
def exportSession (m : MState) (s : String) (today : String) : ExportOutcome :=
  match getEventsBySession m s with
  | none => .alertFailed
  | some evs =>
    if evs.length = 0 then .alertNoEvents
    else .downloaded (exportFilename s today)
      (stringify2 (Json.arr (toJsonList (evs.map (fun r => r.data)))))

/-- `exportSession` runs only read-only transactions; paired with the
(unchanged) manager state to make that observable. -/
def exportSessionSt (m : MState) (s : String) (today : String) : ExportOutcome × MState :=
  (exportSession m s today, m)

/-- `clearDatabase()` up to its `await deleteDatabase()`: synchronously
mark not-ready, drop the handle, empty the queue. -/
def clearDatabasePure (m : MState) : MState :=
  { m with isReady := false, isInitializing := false, db := none, eventQueue := [] }

/- ===================================================================
   Part 5: the asynchronous lifecycle as a labelled transition system.

   Execution is single-threaded and cooperative (§5 of the spec): an async
   method runs synchronously up to its first `await` and suspends there;
   the environment later resolves the awaited operation and the method
   resumes up to its next `await`.  A `SysState` holds the manager fields,
   the suspended continuations (tasks), and a log of call/return events.
   Each `Label` is one atomic step: an external call running its
   synchronous prefix, or the resolution of one pending await.

   `initialize()` (per call id `cid`):
     entry: if `isReady || isInitializing` it returns at once;
     otherwise it sets `isInitializing`, drops the handle and suspends on
     `await deleteDatabase()` (which always resolves — error and blocked
     callbacks also resolve); then suspends on `await openDatabase()`;
     on open success it installs a fresh store, sets `isReady`, clears
     `isInitializing` and runs `processEventQueue()`, awaiting each write;
     the loop stops at the first failed write, pushing only that event
     back; `initialize()` then returns.  On open failure it clears both
     flags and returns (rethrowing to its caller).

   `clearDatabase()` (per call id `cid`):
     entry: synchronously clears both flags, drops the handle, empties the
     queue, then suspends on `await deleteDatabase()`; resolution changes
     no manager state.

   `saveEvent` has no intermediate state observable by the claims we
   settle, so its call and its write outcome form one step.
   =================================================================== -/

/-- Call/return events recorded by an execution. -/
inductive TraceEv where
  | initCalled (cid : Nat) : TraceEv
  | initReturned (cid : Nat) : TraceEv
  | clearCalled (cid : Nat) : TraceEv
  | clearReturned (cid : Nat) : TraceEv
  deriving DecidableEq

/-- A suspended continuation of an async method. -/
inductive TaskK where
  | awaitDelete : TaskK
  | awaitOpen : TaskK
  | draining (batch : List Json) : TaskK
  | clearAwaitDelete : TaskK
  deriving DecidableEq

/-- Is this a suspended `initialize()` (as opposed to a suspended
`clearDatabase()`)? -/
def isInitTask : TaskK → Bool
  | .clearAwaitDelete => false
  | _ => true

/-- The whole system: manager fields, pending tasks, event log. -/
structure SysState where
  m : MState
  tasks : List (Nat × TaskK)
  log : List TraceEv
  deriving DecidableEq

/-- The initial system: a fresh manager, nothing pending. -/
def sysInit : SysState := { m := initialMState, tasks := [], log := [] }

/-- One atomic step: an external call's synchronous prefix, or the
resolution of one pending await (with the environment choosing the
outcome of fallible operations). -/
inductive Label where
  | callInit (cid : Nat) : Label
  | resolveDelete (cid : Nat) : Label
  | resolveOpenOk (cid : Nat) : Label
  | resolveOpenFail (cid : Nat) : Label
  | drainOk (cid : Nat) (ts : Int) (sid : String) : Label
  | drainFail (cid : Nat) : Label
  | callSave (e : Json) (ts : Int) (sid : String) (writeOk : Bool) : Label
  | callClear (cid : Nat) : Label
  | resolveClearDelete (cid : Nat) : Label
  deriving DecidableEq

/-- Replace the continuation of call `cid`. -/
def setTask (tasks : List (Nat × TaskK)) (cid : Nat) (k : TaskK) : List (Nat × TaskK) :=
  tasks.map (fun p => if p.1 = cid then (cid, k) else p)

/-- Remove the continuation of call `cid` (the call finished). -/
def dropTask (tasks : List (Nat × TaskK)) (cid : Nat) : List (Nat × TaskK) :=
  tasks.filter (fun p => p.1 ≠ cid)

/-- Apply one labelled step; `none` when the label does not name a
pending continuation in the right phase. -/
def applyLabel (s : SysState) : Label → Option SysState
  | .callInit cid =>
    if s.m.isReady || s.m.isInitializing then
      some { s with log := s.log ++ [.initCalled cid, .initReturned cid] }
    else
      some { s with
        m := { s.m with isInitializing := true, db := none },
        tasks := s.tasks ++ [(cid, .awaitDelete)],
        log := s.log ++ [.initCalled cid] }
  | .resolveDelete cid =>
    if (cid, TaskK.awaitDelete) ∈ s.tasks then
      some { s with tasks := setTask s.tasks cid .awaitOpen }
    else none
  | .resolveOpenOk cid =>
    if (cid, TaskK.awaitOpen) ∈ s.tasks then
      if s.m.eventQueue.isEmpty then
        some { s with
          m := { s.m with db := some freshStore, isReady := true, isInitializing := false },
          tasks := dropTask s.tasks cid,
          log := s.log ++ [.initReturned cid] }
      else
        some { s with
          m := { s.m with db := some freshStore, isReady := true, isInitializing := false,
                          eventQueue := [] },
          tasks := setTask s.tasks cid (.draining s.m.eventQueue) }
    else none
  | .resolveOpenFail cid =>
    if (cid, TaskK.awaitOpen) ∈ s.tasks then
      some { s with
        m := { s.m with isInitializing := false, isReady := false },
        tasks := dropTask s.tasks cid,
        log := s.log ++ [.initReturned cid] }
    else none
  | .drainOk cid ts sid =>
    match s.m.db with
    | none => none
    | some st =>
      match s.tasks.find? (fun p => p.1 = cid) with
      | some (_, .draining (e :: rest)) =>
        if rest.isEmpty then
          some { s with
            m := { s.m with db := some (addRecord st e ts sid) },
            tasks := dropTask s.tasks cid,
            log := s.log ++ [.initReturned cid] }
        else
          some { s with
            m := { s.m with db := some (addRecord st e ts sid) },
            tasks := setTask s.tasks cid (.draining rest) }
      | _ => none
  | .drainFail cid =>
    match s.tasks.find? (fun p => p.1 = cid) with
    | some (_, .draining (e :: _)) =>
      some { s with
        m := { s.m with eventQueue := s.m.eventQueue ++ [e] },
        tasks := dropTask s.tasks cid,
        log := s.log ++ [.initReturned cid] }
    | _ => none
  | .callSave e ts sid writeOk =>
    some { s with m := saveEventPure s.m e ts sid writeOk }
  | .callClear cid =>
    some { s with
      m := clearDatabasePure s.m,
      tasks := s.tasks ++ [(cid, .clearAwaitDelete)],
      log := s.log ++ [.clearCalled cid] }
  | .resolveClearDelete cid =>
    if (cid, TaskK.clearAwaitDelete) ∈ s.tasks then
      some { s with tasks := dropTask s.tasks cid, log := s.log ++ [.clearReturned cid] }
    else none

/-- Run a sequence of labelled steps. -/
def runLabels (s : SysState) : List Label → Option SysState
  | [] => some s
  | l :: ls =>
    match applyLabel s l with
    | some s2 => runLabels s2 ls
    | none => none

/- ===================================================================
   Part 6: auxiliary predicates and the formal statements of the claims
   that will be refuted (stated first as written, to be disproved).
   =================================================================== -/

/-- `uniqueFirst` in structural form: walking the tail `t` of the full
list `l` at absolute position `n`, keep the elements whose first
occurrence in `l` is the current position. -/
def uniqFrom (l : List String) (n : Nat) (t : List String) : List String :=
  match t with
  | [] => []
  | x :: ts =>
    if jsIndexOf l x = n then x :: uniqFrom l (n + 1) ts
    else uniqFrom l (n + 1) ts

/-- Does this record carry a truthy string `sessionId`? -/
def hasStringSessionId (r : StoredRecord) : Bool :=
  match r.sessionId with
  | .val (.str t) => !(t = (""))
  | _ => false

/-- A character list whose head (if any) is not a decimal digit, so that
a maximal-munch number parse cannot run into it. -/
def notDigitStart : List Char → Prop
  | [] => True
  | c :: _ => isDigitChar c = false

/-- All characters are JSON whitespace. -/
def allWsChars (l : List Char) : Prop := ∀ c ∈ l, isWsChar c = true

/-- Claim C1 as stated: when the writer fails on some event during a
drain, the failed event and every event after it in the drained queue
remain queued, in original order. -/
def drainKeepsFailedAndLater : Prop :=
  ∀ (writeOk : Json → Bool) (ts : Int) (sid : String) (st : EventsStore)
    (pre : List Json) (e : Json) (post : List Json),
    (∀ x ∈ pre, writeOk x = true) → writeOk e = false →
    (processEventQueue writeOk ts sid st (pre ++ e :: post)).2 = e :: post

/-- Claim C2's waiting guarantee as stated: a call to `initialize()` made
while an initialization is in flight returns only once that in-flight
initialization has settled — so if the new call has already returned in
the very step of its call, no initialize continuation can still be
pending. -/
def initCallAwaitsInflight : Prop :=
  ∀ (ls : List Label) (s s2 : SysState) (cid : Nat),
    runLabels sysInit ls = some s →
    s.m.isInitializing = true →
    applyLabel s (.callInit cid) = some s2 →
    TraceEv.initReturned cid ∈ s2.log →
    ∀ p ∈ s2.tasks, isInitTask p.2 = false

/-- Claim C3 as stated (bound part): after every reachable sequence of
operations, the ingress queue holds at most `maxQueueSize` entries. -/
def queueAlwaysBounded : Prop :=
  ∀ (ls : List Label) (s : SysState),
    runLabels sysInit ls = some s →
    s.m.eventQueue.length ≤ s.m.maxQueueSize

/-- The manager state after enqueueing `evs` one by one through
`saveEvent` while the store never becomes ready, with capacity bound `c`. -/
def enqueueNeverReady (c : Nat) (evs : List Json) (ts : Int) (sid : String) : MState :=
  evs.foldl (fun m e => saveEventPure m e ts sid true)
    { initialMState with maxQueueSize := c }

/-- Claim C4 as stated: for every capacity bound `c` and every `k > 0`,
enqueueing `c + k` events while never ready retains exactly the last `c`
events in order, and a subsequent all-successful drain writes exactly
those to the store, emptying the queue. -/
def enqueueRetainsLastCapacity : Prop :=
  ∀ (c k : Nat) (evs : List Json) (ts : Int) (sid : String),
    0 < k → evs.length = c + k →
    (enqueueNeverReady c evs ts sid).eventQueue = evs.drop k ∧
    ((processEventQueue (fun _ => true) ts sid freshStore
        (enqueueNeverReady c evs ts sid).eventQueue).1.records.map (fun r => r.data)
      = evs.drop k) ∧
    (processEventQueue (fun _ => true) ts sid freshStore
        (enqueueNeverReady c evs ts sid).eventQueue).2 = []

/-- The label sequence of a successful re-initialization that drains `n`
queued events: call, delete resolves, open succeeds, `n` successful
writes. -/
def reinitLabels (cid : Nat) (ts : Int) (sid : String) (n : Nat) : List Label :=
  [.callInit cid, .resolveDelete cid, .resolveOpenOk cid]
    ++ List.replicate n (.drainOk cid ts sid)

/-- Concrete store fixture: four records over sessions "b","a","b","c". -/
def c8FixtureRecords : List StoredRecord :=
  [ { id := 1, data := Json.num 1, timestamp := 0, sessionId := JsVal.val (Json.str ("b")) },
    { id := 2, data := Json.num 2, timestamp := 0, sessionId := JsVal.val (Json.str ("a")) },
    { id := 3, data := Json.num 3, timestamp := 0, sessionId := JsVal.val (Json.str ("b")) },
    { id := 4, data := Json.num 4, timestamp := 0, sessionId := JsVal.val (Json.str ("c")) } ]

/-- A ready manager over the C8 fixture store. -/
def c8FixtureState : MState :=
  { db := some { nextId := 5, records := c8FixtureRecords },
    isInitializing := false, isReady := true, eventQueue := [], maxQueueSize := 1000 }

/-- Concrete store fixture with degenerate `sessionId` fields: one proper
session record, then records with a missing, `null`, numeric and
empty-string `sessionId`. -/
def c10FixtureRecords : List StoredRecord :=
  [ { id := 1, data := Json.num 1, timestamp := 0, sessionId := JsVal.val (Json.str ("a")) },
    { id := 2, data := Json.num 2, timestamp := 0, sessionId := JsVal.undef },
    { id := 3, data := Json.num 3, timestamp := 0, sessionId := JsVal.val Json.null },
    { id := 4, data := Json.num 4, timestamp := 0, sessionId := JsVal.val (Json.num 7) },
    { id := 5, data := Json.num 5, timestamp := 0, sessionId := JsVal.val (Json.str ("")) } ]

/-- A ready manager over the C10 fixture store. -/
def c10FixtureState : MState :=
  { db := some { nextId := 6, records := c10FixtureRecords },
    isInitializing := false, isReady := true, eventQueue := [], maxQueueSize := 1000 }

/-- Fixture: the system right after a first `initialize()` call has run to
its `await deleteDatabase()` suspension point (the manager is
Initializing, the call is pending). -/
def c2InflightSys : SysState :=
  { m := { db := none, isInitializing := true, isReady := false,
           eventQueue := [], maxQueueSize := 1000 },
    tasks := [(0, TaskK.awaitDelete)], log := [TraceEv.initCalled 0] }

/-- Fixture: the system right after `clearDatabase()` ran its synchronous
prefix (its destroy is still pending). -/
def c5ClearedSys : SysState :=
  { m := { db := none, isInitializing := false, isReady := false,
           eventQueue := [], maxQueueSize := 1000 },
    tasks := [(7, TaskK.clearAwaitDelete)], log := [TraceEv.clearCalled 7] }

/-- Fixture: a not-ready system with two queued events and no pending
continuation (e.g. after a clear whose destroy has resolved, then two
saves). -/
def c5QueuedSys : SysState :=
  { m := { db := none, isInitializing := false, isReady := false,
           eventQueue := [Json.num 1, Json.num 2], maxQueueSize := 1000 },
    tasks := [], log := [] }

mutual

/-- Node count of a JSON value (strings and numbers count 1): the fuel a
`parseVal` run on its serialization consumes. -/
def sizeJ : Json → Nat
  | .null => 1
  | .bool _ => 1
  | .num _ => 1
  | .str _ => 1
  | .arr xs => 1 + sizeJL xs
  | .obj kvs => 1 + sizeJM kvs
termination_by structural j => j

/-- Summed cost of array elements. -/
def sizeJL : JsonList → Nat
  | .nil => 0
  | .cons x xs => 1 + sizeJ x + sizeJL xs
termination_by structural l => l

/-- Summed cost of object members. -/
def sizeJM : JsonMembers → Nat
  | .nil => 0
  | .cons _ v kvs => 1 + sizeJ v + sizeJM kvs
termination_by structural l => l

end

/-- Concatenation of JSON array spines. -/
def jlConcat : JsonList → JsonList → JsonList
  | .nil, l2 => l2
  | .cons x xs, l2 => .cons x (jlConcat xs l2)

/-- Concatenation of JSON object spines. -/
def jmConcat : JsonMembers → JsonMembers → JsonMembers
  | .nil, l2 => l2
  | .cons k v kvs, l2 => .cons k v (jmConcat kvs l2)

/-- Two records of one session, used to exercise the export round-trip. -/
def c6Records : List StoredRecord :=
  [{ id := 1,
     data := Json.obj (JsonMembers.cons ("type") (Json.num 2)
       (JsonMembers.cons ("ok") (Json.bool true) JsonMembers.nil)),
     timestamp := 10, sessionId := JsVal.val (Json.str ("s1")) },
   { id := 2, data := Json.arr (JsonList.cons (Json.num (-3)) JsonList.nil),
     timestamp := 11, sessionId := JsVal.val (Json.str ("s1")) }]

/-- A store holding `c6Records`. -/
def c6Store : EventsStore := { nextId := 3, records := c6Records }

/-- A ready manager over `c6Store`. -/
def c6M : MState :=
  { db := some c6Store, isInitializing := false, isReady := true,
    eventQueue := [], maxQueueSize := 1000 }

/- ===================================================================
   Part 7: theorems.
   =================================================================== -/

theorem sortById_nil : sortById [] = [] := rfl

theorem sortById_cons (x : StoredRecord) (xs : List StoredRecord) :
    sortById (x :: xs) = insertById x (sortById xs) := rfl

/-- A list already sorted by strictly increasing `id` — the shape every
store reachable through the auto-increment key generator has — is left
unchanged by `sortById`. -/
theorem sortById_eq_of_sorted :
    ∀ l : List StoredRecord, List.Pairwise (fun a b => a.id < b.id) l → sortById l = l := by
  intro l h
  induction l with
  | nil => rfl
  | cons x xs ih =>
    rw [List.pairwise_cons] at h
    rw [sortById_cons, ih h.2]
    cases xs with
    | nil => rfl
    | cons y ys =>
      have hxy : x.id ≤ y.id := le_of_lt (h.1 y (by simp))
      simp [insertById, hxy]

/-- Claim C7: for every session id `s` and every (auto-increment-shaped)
store content, `getEventsBySession s` returns exactly the records of
`getAllEvents()` whose `sessionId` equals `s`, in the same relative
order. -/
theorem c7_bySession_filters_getAll (m : MState) (st : EventsStore) (s : String)
    (hdb : m.db = some st) (hready : m.isReady = true)
    (hsorted : List.Pairwise (fun a b => a.id < b.id) st.records) :
    getEventsBySession m s
      = (getAllEvents m).map
          (fun all => all.filter (fun r => sessionMatches r.sessionId s)) := by
  unfold getEventsBySession getAllEvents
  rw [hdb, hready]
  have hfiltered : List.Pairwise (fun a b => a.id < b.id)
      (st.records.filter (fun r => sessionMatches r.sessionId s)) :=
    hsorted.sublist (List.filter_sublist _)
  simp [storeGetAll, storeIndexGetAll, sortById_eq_of_sorted _ hsorted,
    sortById_eq_of_sorted _ hfiltered]

/-- Witness for C7: a concrete three-record store with two sessions. -/
theorem c7_bySession_filters_getAll_witness :
    getEventsBySession
        { db := some { nextId := 4, records :=
            [ { id := 1, data := Json.num 10, timestamp := 5, sessionId := JsVal.val (Json.str ("s1")) },
              { id := 2, data := Json.num 20, timestamp := 6, sessionId := JsVal.val (Json.str ("s2")) },
              { id := 3, data := Json.num 30, timestamp := 7, sessionId := JsVal.val (Json.str ("s1")) } ] },
          isInitializing := false, isReady := true, eventQueue := [], maxQueueSize := 1000 } ("s1")
      = (getAllEvents
          { db := some { nextId := 4, records :=
              [ { id := 1, data := Json.num 10, timestamp := 5, sessionId := JsVal.val (Json.str ("s1")) },
                { id := 2, data := Json.num 20, timestamp := 6, sessionId := JsVal.val (Json.str ("s2")) },
                { id := 3, data := Json.num 30, timestamp := 7, sessionId := JsVal.val (Json.str ("s1")) } ] },
            isInitializing := false, isReady := true, eventQueue := [], maxQueueSize := 1000 }).map
          (fun all => all.filter (fun r => sessionMatches r.sessionId ("s1"))) :=
  c7_bySession_filters_getAll _ _ _ rfl rfl (by decide)

/-- Claim C9: when no records match the requested session id (in
particular on an empty store), `exportSession` resolves to the
user-visible "No events found" notification — not a thrown failure —
produces no artifact, and leaves the manager/store state unchanged. -/
theorem c9_export_missing_session (m : MState) (st : EventsStore) (s today : String)
    (hdb : m.db = some st) (hready : m.isReady = true)
    (hempty : st.records.filter (fun r => sessionMatches r.sessionId s) = []) :
    exportSessionSt m s today = (ExportOutcome.alertNoEvents, m) := by
  unfold exportSessionSt exportSession getEventsBySession
  rw [hdb, hready]
  simp [storeIndexGetAll, hempty, sortById_nil]

/-- Witness for C9: exporting session "missing" from an empty, ready
store. -/
theorem c9_export_missing_session_witness :
    exportSessionSt
        { db := some { nextId := 1, records := [] }, isInitializing := false,
          isReady := true, eventQueue := [], maxQueueSize := 1000 }
        ("missing") ("2026-10-12")
      = (ExportOutcome.alertNoEvents,
         { db := some { nextId := 1, records := [] }, isInitializing := false,
           isReady := true, eventQueue := [], maxQueueSize := 1000 }) :=
  c9_export_missing_session _ _ _ _ rfl rfl rfl

theorem jsIndexOf_cons_eq (x : String) (zs : List String) :
    jsIndexOf (x :: zs) x = 0 := by
  simp [jsIndexOf]

theorem jsIndexOf_cons_ne (y x : String) (zs : List String) (h : ¬ (y = x)) :
    jsIndexOf (y :: zs) x = jsIndexOf zs x + 1 := by
  simp [jsIndexOf, h]

theorem jsIndexOf_append_not_mem (x : String) :
    ∀ (pre t : List String), x ∉ pre → jsIndexOf (pre ++ x :: t) x = pre.length := by
  intro pre
  induction pre with
  | nil => intro t _; simp [jsIndexOf]
  | cons y ys ih =>
    intro t h
    have hyx : ¬ (y = x) := by intro he; exact h (by simp [he])
    have hx : x ∉ ys := fun hm => h (by simp [hm])
    rw [List.cons_append, jsIndexOf_cons_ne y x _ hyx, ih t hx]
    simp

theorem jsIndexOf_lt_of_mem_left (x : String) :
    ∀ (pre rest : List String), x ∈ pre → jsIndexOf (pre ++ rest) x < pre.length := by
  intro pre
  induction pre with
  | nil => intro rest h; cases h
  | cons y ys ih =>
    intro rest h
    by_cases hyx : y = x
    · rw [List.cons_append, hyx, jsIndexOf_cons_eq]
      simp
    · have hx : x ∈ ys := by
        rcases List.mem_cons.mp h with h1 | h1
        · exact absurd h1.symm hyx
        · exact h1
      have h1 := ih rest hx
      rw [List.cons_append, jsIndexOf_cons_ne y x _ hyx]
      simp only [List.length_cons]
      omega

theorem enumFrom_filter_map_eq_uniqFrom (l : List String) :
    ∀ (t : List String) (n : Nat),
      ((List.enumFrom n t).filter (fun p => jsIndexOf l p.2 == p.1)).map (fun p => p.2)
        = uniqFrom l n t := by
  intro t
  induction t with
  | nil => intro n; rfl
  | cons x ts ih =>
    intro n
    by_cases h : jsIndexOf l x = n
    · simp [List.enumFrom, List.filter_cons, uniqFrom, h, ih]
    · simp [List.enumFrom, List.filter_cons, uniqFrom, h, ih]

theorem uniqueFirst_eq_uniqFrom (l : List String) : uniqueFirst l = uniqFrom l 0 l := by
  unfold uniqueFirst
  exact enumFrom_filter_map_eq_uniqFrom l l 0

theorem uniqFrom_mem (y : String) :
    ∀ (t pre l : List String), l = pre ++ t →
      (y ∈ uniqFrom l pre.length t ↔ (y ∈ t ∧ y ∉ pre)) := by
  intro t
  induction t with
  | nil => intro pre l _; simp [uniqFrom]
  | cons x ts ih =>
    intro pre l hl
    have hl2 : l = (pre ++ [x]) ++ ts := by simp [hl]
    have hlen : pre.length + 1 = (pre ++ [x]).length := by simp
    by_cases hx : x ∈ pre
    · have hcond : ¬ (jsIndexOf l x = pre.length) := by
        have := jsIndexOf_lt_of_mem_left x pre (x :: ts) hx
        rw [← hl] at this
        omega
      rw [show uniqFrom l pre.length (x :: ts)
            = uniqFrom l (pre.length + 1) ts by simp [uniqFrom, hcond]]
      rw [hlen, ih (pre ++ [x]) l hl2]
      constructor
      · rintro ⟨h1, h2⟩
        refine ⟨by simp [h1], fun hc => h2 (by simp [hc])⟩
      · rintro ⟨h1, h2⟩
        rcases List.mem_cons.mp h1 with h3 | h3
        · exact absurd (h3 ▸ hx) h2
        · refine ⟨h3, ?_⟩
          intro hc
          rcases List.mem_append.mp hc with h4 | h4
          · exact h2 h4
          · have : y = x := by simpa using h4
            exact h2 (this ▸ hx)
    · have hcond : jsIndexOf l x = pre.length := by
        rw [hl]; exact jsIndexOf_append_not_mem x pre ts hx
      rw [show uniqFrom l pre.length (x :: ts)
            = x :: uniqFrom l (pre.length + 1) ts by simp [uniqFrom, hcond]]
      rw [List.mem_cons, hlen, ih (pre ++ [x]) l hl2]
      constructor
      · rintro (h1 | ⟨h1, h2⟩)
        · exact ⟨by simp [h1], h1 ▸ hx⟩
        · exact ⟨by simp [h1], fun hc => h2 (by simp [hc])⟩
      · rintro ⟨h1, h2⟩
        rcases List.mem_cons.mp h1 with h3 | h3
        · exact Or.inl h3
        · by_cases hyx : y = x
          · exact Or.inl hyx
          · refine Or.inr ⟨h3, ?_⟩
            intro hc
            rcases List.mem_append.mp hc with h4 | h4
            · exact h2 h4
            · exact hyx (by simpa using h4)

theorem uniqFrom_idx_ge (y : String) :
    ∀ (t pre l : List String), l = pre ++ t →
      y ∈ uniqFrom l pre.length t → pre.length ≤ jsIndexOf l y := by
  intro t
  induction t with
  | nil => intro pre l _ h; cases h
  | cons x ts ih =>
    intro pre l hl hy
    have hl2 : l = (pre ++ [x]) ++ ts := by simp [hl]
    have hlen : pre.length + 1 = (pre ++ [x]).length := by simp
    by_cases hcond : jsIndexOf l x = pre.length
    · rw [show uniqFrom l pre.length (x :: ts)
            = x :: uniqFrom l (pre.length + 1) ts by simp [uniqFrom, hcond]] at hy
      rcases List.mem_cons.mp hy with h1 | h1
      · rw [h1]
        exact le_of_eq hcond.symm
      · have := ih (pre ++ [x]) l hl2 (by rw [← hlen]; exact h1)
        simp at this
        omega
    · rw [show uniqFrom l pre.length (x :: ts)
            = uniqFrom l (pre.length + 1) ts by simp [uniqFrom, hcond]] at hy
      have := ih (pre ++ [x]) l hl2 (by rw [← hlen]; exact hy)
      simp at this
      omega

theorem uniqFrom_nodup :
    ∀ (t pre l : List String), l = pre ++ t → (uniqFrom l pre.length t).Nodup := by
  intro t
  induction t with
  | nil => intro pre l _; simp [uniqFrom]
  | cons x ts ih =>
    intro pre l hl
    have hl2 : l = (pre ++ [x]) ++ ts := by simp [hl]
    have hlen : pre.length + 1 = (pre ++ [x]).length := by simp
    by_cases hcond : jsIndexOf l x = pre.length
    · rw [show uniqFrom l pre.length (x :: ts)
            = x :: uniqFrom l (pre.length + 1) ts by simp [uniqFrom, hcond]]
      refine List.nodup_cons.mpr ⟨?_, by rw [hlen]; exact ih (pre ++ [x]) l hl2⟩
      intro hx
      have := (uniqFrom_mem x ts (pre ++ [x]) l hl2).mp (by rw [← hlen]; exact hx)
      exact this.2 (by simp)
    · rw [show uniqFrom l pre.length (x :: ts)
            = uniqFrom l (pre.length + 1) ts by simp [uniqFrom, hcond]]
      rw [hlen]
      exact ih (pre ++ [x]) l hl2

theorem uniqFrom_pairwise :
    ∀ (t pre l : List String), l = pre ++ t →
      (uniqFrom l pre.length t).Pairwise (fun a b => jsIndexOf l a < jsIndexOf l b) := by
  intro t
  induction t with
  | nil => intro pre l _; simp [uniqFrom]
  | cons x ts ih =>
    intro pre l hl
    have hl2 : l = (pre ++ [x]) ++ ts := by simp [hl]
    have hlen : pre.length + 1 = (pre ++ [x]).length := by simp
    by_cases hcond : jsIndexOf l x = pre.length
    · rw [show uniqFrom l pre.length (x :: ts)
            = x :: uniqFrom l (pre.length + 1) ts by simp [uniqFrom, hcond]]
      refine List.pairwise_cons.mpr ⟨?_, by rw [hlen]; exact ih (pre ++ [x]) l hl2⟩
      intro y hy
      have hge := uniqFrom_idx_ge y ts (pre ++ [x]) l hl2 (by rw [← hlen]; exact hy)
      simp at hge
      omega
    · rw [show uniqFrom l pre.length (x :: ts)
            = uniqFrom l (pre.length + 1) ts by simp [uniqFrom, hcond]]
      rw [hlen]
      exact ih (pre ++ [x]) l hl2

theorem uniqueFirst_mem (l : List String) (y : String) :
    y ∈ uniqueFirst l ↔ y ∈ l := by
  rw [uniqueFirst_eq_uniqFrom]
  have := uniqFrom_mem y l [] l (by simp)
  simpa using this

theorem uniqueFirst_nodup (l : List String) : (uniqueFirst l).Nodup := by
  rw [uniqueFirst_eq_uniqFrom]
  have := uniqFrom_nodup l [] l (by simp)
  simpa using this

theorem uniqueFirst_pairwise (l : List String) :
    (uniqueFirst l).Pairwise (fun a b => jsIndexOf l a < jsIndexOf l b) := by
  rw [uniqueFirst_eq_uniqFrom]
  have := uniqFrom_pairwise l [] l (by simp)
  simpa using this

theorem keepNonEmptyStrings_mem (x : String) :
    ∀ vs : List JsVal,
      (x ∈ keepNonEmptyStrings vs ↔ (JsVal.val (Json.str x) ∈ vs ∧ ¬ x = (""))) := by
  intro vs
  induction vs with
  | nil => simp [keepNonEmptyStrings]
  | cons v vs ih =>
    cases v with
    | undef => simp [keepNonEmptyStrings, ih]
    | val j =>
      cases j with
      | str s =>
        by_cases hs : s = ("")
        · subst hs
          rw [show keepNonEmptyStrings (JsVal.val (Json.str ("")) :: vs)
                = keepNonEmptyStrings vs from by simp [keepNonEmptyStrings], ih,
              List.mem_cons]
          constructor
          · rintro ⟨h1, h2⟩; exact ⟨Or.inr h1, h2⟩
          · rintro ⟨h1 | h1, h2⟩
            · injection h1 with h3; injection h3 with h4; exact absurd h4 h2
            · exact ⟨h1, h2⟩
        · rw [show keepNonEmptyStrings (JsVal.val (Json.str s) :: vs)
                  = s :: keepNonEmptyStrings vs from by simp [keepNonEmptyStrings, hs],
                List.mem_cons, ih, List.mem_cons]
          constructor
          · rintro (h1 | ⟨h1, h2⟩)
            · subst h1; exact ⟨Or.inl rfl, hs⟩
            · exact ⟨Or.inr h1, h2⟩
          · rintro ⟨h1 | h1, h2⟩
            · injection h1 with h3; injection h3 with h4; exact Or.inl h4
            · exact Or.inr ⟨h1, h2⟩
      | null => simp [keepNonEmptyStrings, ih]
      | bool b => simp [keepNonEmptyStrings, ih]
      | num n => simp [keepNonEmptyStrings, ih]
      | arr xs => simp [keepNonEmptyStrings, ih]
      | obj kvs => simp [keepNonEmptyStrings, ih]

theorem keepNonEmptyStrings_filter_records :
    ∀ rs : List StoredRecord,
      keepNonEmptyStrings (rs.map (fun r => r.sessionId))
        = keepNonEmptyStrings ((rs.filter hasStringSessionId).map (fun r => r.sessionId)) := by
  intro rs
  induction rs with
  | nil => rfl
  | cons r rs ih =>
    rcases hr : r.sessionId with _ | j
    · simp [List.filter_cons, hasStringSessionId, hr, keepNonEmptyStrings, ih]
    · cases j with
      | str s =>
        by_cases hs : s = ("")
        · subst hs
          simp [List.filter_cons, hasStringSessionId, hr, keepNonEmptyStrings, ih]
        · simp [List.filter_cons, hasStringSessionId, hr, keepNonEmptyStrings, hs, ih]
      | null => simp [List.filter_cons, hasStringSessionId, hr, keepNonEmptyStrings, ih]
      | bool b => simp [List.filter_cons, hasStringSessionId, hr, keepNonEmptyStrings, ih]
      | num n => simp [List.filter_cons, hasStringSessionId, hr, keepNonEmptyStrings, ih]
      | arr xs => simp [List.filter_cons, hasStringSessionId, hr, keepNonEmptyStrings, ih]
      | obj kvs => simp [List.filter_cons, hasStringSessionId, hr, keepNonEmptyStrings, ih]

theorem getAllSessions_eq (m : MState) (st : EventsStore)
    (hdb : m.db = some st) (hready : m.isReady = true)
    (hsorted : List.Pairwise (fun a b => a.id < b.id) st.records) :
    getAllSessions m
      = some (uniqueFirst (keepNonEmptyStrings (st.records.map (fun r => r.sessionId)))) := by
  unfold getAllSessions
  rw [hdb, hready]
  simp [sessionsOfRecords, storeGetAll, sortById_eq_of_sorted _ hsorted]

theorem mem_sessions_iff (st : EventsStore) (t : String) :
    t ∈ uniqueFirst (keepNonEmptyStrings (st.records.map (fun r => r.sessionId)))
      ↔ ((∃ r ∈ st.records, r.sessionId = JsVal.val (Json.str t)) ∧ ¬ t = ("")) := by
  rw [uniqueFirst_mem, keepNonEmptyStrings_mem, List.mem_map]

/-- Claim C8: for every store content produced by an interleaving of
sessions (each record tagged with a generated — hence nonempty — session
id string), `getAllSessions` returns a duplicate-free list derived from
the records themselves in which a session id occurs iff some record
carries it, ordered by first appearance in the record scan. -/
theorem c8_sessions_once_first_seen (m : MState) (st : EventsStore)
    (out : List String) (t : String)
    (hdb : m.db = some st) (hready : m.isReady = true)
    (hsorted : List.Pairwise (fun a b => a.id < b.id) st.records)
    (hall : ∀ r ∈ st.records, ∃ u, r.sessionId = JsVal.val (Json.str u) ∧ ¬ u = (""))
    (hout : getAllSessions m = some out) :
    (t ∈ out ↔ ∃ r ∈ st.records, r.sessionId = JsVal.val (Json.str t)) ∧
    out.Nodup ∧
    out.Pairwise (fun a b =>
      jsIndexOf (keepNonEmptyStrings (st.records.map (fun r => r.sessionId))) a
        < jsIndexOf (keepNonEmptyStrings (st.records.map (fun r => r.sessionId))) b) := by
  rw [getAllSessions_eq m st hdb hready hsorted] at hout
  injection hout with hout2
  subst hout2
  refine ⟨?_, uniqueFirst_nodup _, uniqueFirst_pairwise _⟩
  rw [mem_sessions_iff]
  constructor
  · rintro ⟨h1, _⟩; exact h1
  · rintro ⟨r, hr, he⟩
    refine ⟨⟨r, hr, he⟩, ?_⟩
    rcases hall r hr with ⟨u, hu, hune⟩
    rw [hu] at he
    injection he with h3
    injection h3 with h4
    exact h4 ▸ hune

/-- Witness for C8: sessions "b", "a", "b", "c" yield `["b","a","c"]`. -/
theorem c8_sessions_once_first_seen_witness :
    (("a") ∈ [("b"), ("a"), ("c")] ↔ ∃ r ∈ c8FixtureRecords,
      StoredRecord.sessionId r = JsVal.val (Json.str ("a"))) ∧
    List.Nodup [("b"), ("a"), ("c")] ∧
    List.Pairwise (fun a b =>
      jsIndexOf (keepNonEmptyStrings (c8FixtureRecords.map (fun r => r.sessionId))) a
        < jsIndexOf (keepNonEmptyStrings (c8FixtureRecords.map (fun r => r.sessionId))) b)
      [("b"), ("a"), ("c")] :=
  c8_sessions_once_first_seen c8FixtureState { nextId := 5, records := c8FixtureRecords }
    [("b"), ("a"), ("c")] ("a") rfl rfl (by decide)
    (by
      intro r hr
      simp only [c8FixtureRecords, List.mem_cons, List.not_mem_nil, or_false] at hr
      rcases hr with rfl | rfl | rfl | rfl
      · exact ⟨("b"), rfl, by decide⟩
      · exact ⟨("a"), rfl, by decide⟩
      · exact ⟨("b"), rfl, by decide⟩
      · exact ⟨("c"), rfl, by decide⟩)
    (by decide)

/-- Claim C10: every id returned by `getAllSessions` is a non-empty
string that is the `sessionId` of some record, and records whose
`sessionId` is absent, `null` or not a string contribute no entry — the
result is the same as if they were not in the store at all. -/
theorem c10_sessions_exclude_nonstring (m : MState) (st : EventsStore)
    (out : List String) (x : String)
    (hdb : m.db = some st) (hready : m.isReady = true)
    (hsorted : List.Pairwise (fun a b => a.id < b.id) st.records)
    (hout : getAllSessions m = some out) (hx : x ∈ out) :
    (¬ x = ("") ∧ ∃ r ∈ st.records, r.sessionId = JsVal.val (Json.str x)) ∧
    getAllSessions m
      = some (sessionsOfRecords (st.records.filter hasStringSessionId)) := by
  rw [getAllSessions_eq m st hdb hready hsorted] at hout
  injection hout with hout2
  subst hout2
  have hmem := (mem_sessions_iff st x).mp hx
  refine ⟨⟨hmem.2, hmem.1⟩, ?_⟩
  rw [getAllSessions_eq m st hdb hready hsorted]
  unfold sessionsOfRecords
  rw [keepNonEmptyStrings_filter_records]

/-- Witness for C10: on the degenerate fixture, only "a" is reported. -/
theorem c10_sessions_exclude_nonstring_witness :
    (¬ ("a") = ("") ∧ ∃ r ∈ c10FixtureRecords,
        StoredRecord.sessionId r = JsVal.val (Json.str ("a"))) ∧
    getAllSessions c10FixtureState
      = some (sessionsOfRecords (c10FixtureRecords.filter hasStringSessionId)) :=
  c10_sessions_exclude_nonstring c10FixtureState
    { nextId := 6, records := c10FixtureRecords } [("a")] ("a")
    rfl rfl (by decide) (by decide) (by decide)

theorem drainGo_pre_ok (writeOk : Json → Bool) (ts : Int) (sid : String)
    (e : Json) (post : List Json) :
    ∀ (pre : List Json) (st : EventsStore), (∀ x ∈ pre, writeOk x = true) →
      drainGo writeOk ts sid st (pre ++ e :: post)
        = drainGo writeOk ts sid
            (pre.foldl (fun acc x => addRecord acc x ts sid) st) (e :: post) := by
  intro pre
  induction pre with
  | nil => intro st _; rfl
  | cons x xs ih =>
    intro st h
    have hx : writeOk x = true := h x (by simp)
    rw [List.cons_append, show drainGo writeOk ts sid st (x :: (xs ++ e :: post))
          = drainGo writeOk ts sid (addRecord st x ts sid) (xs ++ e :: post) from by
        simp [drainGo, hx]]
    rw [ih (addRecord st x ts sid) (fun y hy => h y (by simp [hy]))]
    rfl

/-- Claim C1, as amended: when the writer fails on some event during a
drain, draining stops there and only the failed event is re-queued; the
events after it in the drained batch are dropped (they are lost), while
the events before it have been written in order. -/
theorem c1_drain_requeues_only_failed (writeOk : Json → Bool) (ts : Int) (sid : String)
    (st : EventsStore) (pre : List Json) (e : Json) (post : List Json)
    (hpre : ∀ x ∈ pre, writeOk x = true) (he : writeOk e = false) :
    processEventQueue writeOk ts sid st (pre ++ e :: post)
      = (pre.foldl (fun acc x => addRecord acc x ts sid) st, [e]) := by
  have hne : (pre ++ e :: post).isEmpty = false := by
    cases pre <;> rfl
  rw [show processEventQueue writeOk ts sid st (pre ++ e :: post)
        = drainGo writeOk ts sid st (pre ++ e :: post) from by
      simp [processEventQueue, hne]]
  rw [drainGo_pre_ok writeOk ts sid e post pre st hpre]
  simp [drainGo, he]

/-- Witness for the amended C1: a drain of `[1, null, 2]` whose writer
rejects `null` writes `1`, re-queues `null`, and drops `2`. -/
theorem c1_drain_requeues_only_failed_witness :
    processEventQueue (fun j => !(j == Json.null)) 0 ("s") freshStore
        ([Json.num 1] ++ Json.null :: [Json.num 2])
      = ([Json.num 1].foldl (fun acc x => addRecord acc x 0 ("s")) freshStore, [Json.null]) :=
  c1_drain_requeues_only_failed (fun j => !(j == Json.null)) 0 ("s") freshStore
    [Json.num 1] Json.null [Json.num 2] (by decide) (by decide)

/-- Counterexample to claim C1 as stated: with queue `[null, true]` and a
writer that fails on `null`, the drain leaves only `[null]` queued — the
event after the failed one is silently lost, contradicting "the failed
one and all events after it remain queued". -/
theorem c1_claim_counterexample : ¬ drainKeepsFailedAndLater := by
  intro h
  have h2 := h (fun j => !(j == Json.null)) 0 ("s") freshStore
    [] Json.null [Json.bool true]
    (fun x hx => absurd hx (List.not_mem_nil x)) (by decide)
  exact absurd h2 (by decide)

theorem drop_bound_compose {α : Type} (l r : List α) (c : Nat) :
    ((l.drop (l.length - c)) ++ r).drop (((l.drop (l.length - c)) ++ r).length - c)
      = (l ++ r).drop ((l ++ r).length - c) := by
  have h1 : l.length - c ≤ l.length := Nat.sub_le _ _
  rw [← List.drop_append_of_le_length h1]
  rw [List.drop_drop]
  congr 1
  simp [List.length_drop]
  omega

theorem trimToMax_eq_drop (q : List Json) (e : Json) (c : Nat) (hc : 0 < c) :
    trimToMax (q ++ [e]) c = (q ++ [e]).drop ((q ++ [e]).length - c) := by
  unfold trimToMax jsSliceLast
  by_cases h : (q ++ [e]).length > c
  · rw [if_pos h, if_neg (by omega)]
  · rw [if_neg h]
    have : (q ++ [e]).length - c = 0 := by omega
    rw [this, List.drop_zero]

theorem enqueue_go (ts : Int) (sid : String) (c : Nat) (hc : 0 < c) :
    ∀ (evs : List Json) (m : MState),
      m.isReady = false → m.maxQueueSize = c → m.eventQueue.length ≤ c →
      ((evs.foldl (fun m2 e => saveEventPure m2 e ts sid true) m).isReady = false ∧
       (evs.foldl (fun m2 e => saveEventPure m2 e ts sid true) m).db = m.db ∧
       (evs.foldl (fun m2 e => saveEventPure m2 e ts sid true) m).maxQueueSize = c ∧
       (evs.foldl (fun m2 e => saveEventPure m2 e ts sid true) m).eventQueue
         = (m.eventQueue ++ evs).drop ((m.eventQueue ++ evs).length - c)) := by
  intro evs
  induction evs with
  | nil =>
    intro m h1 h2 h3
    refine ⟨h1, rfl, h2, ?_⟩
    have hz : m.eventQueue.length - c = 0 := by omega
    simp [hz]
  | cons e evs ih =>
    intro m h1 h2 h3
    have hstep : saveEventPure m e ts sid true
        = { m with eventQueue := trimToMax (m.eventQueue ++ [e]) c } := by
      simp [saveEventPure, h1, h2]
    rw [List.foldl_cons, hstep]
    have hlen : (trimToMax (m.eventQueue ++ [e]) c).length ≤ c := by
      rw [trimToMax_eq_drop _ _ _ hc]
      simp [List.length_drop]
      omega
    have ihm := ih { m with eventQueue := trimToMax (m.eventQueue ++ [e]) c } h1 h2 hlen
    refine ⟨ihm.1, ihm.2.1, ihm.2.2.1, ?_⟩
    rw [ihm.2.2.2]
    show (trimToMax (m.eventQueue ++ [e]) c ++ evs).drop _ = _
    rw [trimToMax_eq_drop _ _ _ hc, drop_bound_compose]
    simp

theorem drainGo_all_ok (ts : Int) (sid : String) :
    ∀ (q : List Json) (st : EventsStore),
      drainGo (fun _ => true) ts sid st q
        = (q.foldl (fun acc e => addRecord acc e ts sid) st, []) := by
  intro q
  induction q with
  | nil => intro st; rfl
  | cons e q ih =>
    intro st
    rw [show drainGo (fun _ => true) ts sid st (e :: q)
          = drainGo (fun _ => true) ts sid (addRecord st e ts sid) q from by
        simp [drainGo]]
    rw [ih]
    rfl

theorem foldl_addRecord_data (ts : Int) (sid : String) :
    ∀ (q : List Json) (st : EventsStore),
      (q.foldl (fun acc e => addRecord acc e ts sid) st).records.map (fun r => r.data)
        = st.records.map (fun r => r.data) ++ q := by
  intro q
  induction q with
  | nil => intro st; simp
  | cons e q ih =>
    intro st
    rw [List.foldl_cons, ih]
    simp [addRecord]

/-- Claim C4, as amended: for every positive capacity bound `c` and every
`k > 0`, enqueueing `c + k` events while the store never becomes ready
retains exactly the last `c` events in original order, and a subsequent
all-successful drain writes exactly those `c` events to the store in
order, emptying the queue.  (Positivity of `c` is required: with
`maxQueueSize = 0` the trim `slice(-0)` keeps the whole array, so the
queue is unbounded.) -/
theorem c4_enqueue_retains_last_c (c k : Nat) (evs : List Json) (ts : Int) (sid : String)
    (hc : 0 < c) (hk : 0 < k) (hlen : evs.length = c + k) :
    (enqueueNeverReady c evs ts sid).eventQueue = evs.drop k ∧
    ((processEventQueue (fun _ => true) ts sid freshStore
        (enqueueNeverReady c evs ts sid).eventQueue).1.records.map (fun r => r.data)
      = evs.drop k) ∧
    (processEventQueue (fun _ => true) ts sid freshStore
        (enqueueNeverReady c evs ts sid).eventQueue).2 = [] := by
  have hq : (enqueueNeverReady c evs ts sid).eventQueue = evs.drop k := by
    unfold enqueueNeverReady
    have h := (enqueue_go ts sid c hc evs { initialMState with maxQueueSize := c }
      rfl rfl (by simp [initialMState])).2.2.2
    rw [h]
    simp [initialMState]
    congr 1
    omega
  refine ⟨hq, ?_, ?_⟩
  · rw [hq]
    have hne : (evs.drop k).isEmpty = false := by
      have : (evs.drop k).length = c := by simp [List.length_drop]; omega
      cases hd : evs.drop k with
      | nil => rw [hd] at this; simp at this; omega
      | cons a l => rfl
    rw [show processEventQueue (fun _ => true) ts sid freshStore (evs.drop k)
          = drainGo (fun _ => true) ts sid freshStore (evs.drop k) from by
        simp [processEventQueue, hne]]
    rw [drainGo_all_ok]
    rw [foldl_addRecord_data]
    simp [freshStore]
  · rw [hq]
    have hne : (evs.drop k).isEmpty = false := by
      have : (evs.drop k).length = c := by simp [List.length_drop]; omega
      cases hd : evs.drop k with
      | nil => rw [hd] at this; simp at this; omega
      | cons a l => rfl
    rw [show processEventQueue (fun _ => true) ts sid freshStore (evs.drop k)
          = drainGo (fun _ => true) ts sid freshStore (evs.drop k) from by
        simp [processEventQueue, hne]]
    rw [drainGo_all_ok]

/-- Witness for the amended C4: capacity 2, five events; the last two
survive and are the two records written by the drain. -/
theorem c4_enqueue_retains_last_c_witness :
    (enqueueNeverReady 2 [Json.num 1, Json.num 2, Json.num 3, Json.num 4, Json.num 5] 0 ("s")).eventQueue
      = [Json.num 1, Json.num 2, Json.num 3, Json.num 4, Json.num 5].drop 3 ∧
    ((processEventQueue (fun _ => true) 0 ("s") freshStore
        (enqueueNeverReady 2 [Json.num 1, Json.num 2, Json.num 3, Json.num 4, Json.num 5] 0 ("s")).eventQueue).1.records.map (fun r => r.data)
      = [Json.num 1, Json.num 2, Json.num 3, Json.num 4, Json.num 5].drop 3) ∧
    (processEventQueue (fun _ => true) 0 ("s") freshStore
        (enqueueNeverReady 2 [Json.num 1, Json.num 2, Json.num 3, Json.num 4, Json.num 5] 0 ("s")).eventQueue).2 = [] :=
  c4_enqueue_retains_last_c 2 3 [Json.num 1, Json.num 2, Json.num 3, Json.num 4, Json.num 5]
    0 ("s") (by decide) (by decide) (by decide)

/-- Counterexample to claim C4 as stated: at capacity bound `c = 0` the
source trim is `slice(-0)` = `slice(0)`, which keeps every event, so
enqueueing `0 + 1` events leaves one event queued instead of "the last
0". -/
theorem c4_claim_counterexample : ¬ enqueueRetainsLastCapacity := by
  intro h
  have h2 := (h 0 1 [Json.null] 0 ("s") (by decide) (by decide)).1
  exact absurd h2 (by decide)

theorem runLabels_append (l2 : List Label) :
    ∀ (l1 : List Label) (s : SysState),
      runLabels s (l1 ++ l2)
        = match runLabels s l1 with
          | some s1 => runLabels s1 l2
          | none => none := by
  intro l1
  induction l1 with
  | nil => intro s; rfl
  | cons l ls ih =>
    intro s
    rw [List.cons_append]
    show (match applyLabel s l with
          | some s2 => runLabels s2 (ls ++ l2)
          | none => none) = _
    cases h : applyLabel s l with
    | none => simp [runLabels, h]
    | some s2 => simp [runLabels, h, ih]

theorem failSaves_growth (n : Nat) :
    ∀ (s : SysState), s.m.isReady = true → s.m.db.isSome = true →
      ∃ s2, runLabels s (List.replicate n (Label.callSave Json.null 0 ("s") false)) = some s2
        ∧ s2.m.eventQueue.length = s.m.eventQueue.length + n
        ∧ s2.m.maxQueueSize = s.m.maxQueueSize := by
  induction n with
  | zero => intro s _ _; exact ⟨s, rfl, by simp, rfl⟩
  | succ n ih =>
    intro s h1 h2
    rcases Option.isSome_iff_exists.mp h2 with ⟨st, hst⟩
    have hsave : saveEventPure s.m Json.null 0 ("s") false
        = { s.m with eventQueue := s.m.eventQueue ++ [Json.null] } := by
      simp [saveEventPure, h1, hst]
    have hstep : applyLabel s (Label.callSave Json.null 0 ("s") false)
        = some { s with m := { s.m with eventQueue := s.m.eventQueue ++ [Json.null] } } := by
      simp only [applyLabel]
      rw [hsave]
    rcases ih { s with m := { s.m with eventQueue := s.m.eventQueue ++ [Json.null] } }
        h1 (by simp [hst]) with ⟨s2, hrun, hlen, hmax⟩
    refine ⟨s2, ?_, ?_, hmax⟩
    · rw [List.replicate_succ]
      show (match applyLabel s (Label.callSave Json.null 0 ("s") false) with
            | some s3 => runLabels s3 (List.replicate n (Label.callSave Json.null 0 ("s") false))
            | none => none) = some s2
      rw [hstep]
      exact hrun
    · rw [hlen]
      simp
      omega

/-- Counterexample to claim C3 as stated: the write-failure retry path of
`saveEvent` pushes without enforcing the bound, so 1001 failed writes
while Ready leave 1001 > 1000 events queued — the capacity invariant
fails after a reachable operation sequence. -/
theorem c3_claim_counterexample : ¬ queueAlwaysBounded := by
  intro h
  have h0 : runLabels sysInit [Label.callInit 0, Label.resolveDelete 0, Label.resolveOpenOk 0]
      = some { m := { db := some freshStore, isInitializing := false, isReady := true,
                      eventQueue := [], maxQueueSize := 1000 },
               tasks := [], log := [TraceEv.initCalled 0, TraceEv.initReturned 0] } := by
    decide
  rcases failSaves_growth 1001
      { m := { db := some freshStore, isInitializing := false, isReady := true,
               eventQueue := [], maxQueueSize := 1000 },
        tasks := [], log := [TraceEv.initCalled 0, TraceEv.initReturned 0] }
      rfl rfl with ⟨s2, hrun, hlen, hmax⟩
  have hfull : runLabels sysInit
      ([Label.callInit 0, Label.resolveDelete 0, Label.resolveOpenOk 0]
        ++ List.replicate 1001 (Label.callSave Json.null 0 ("s") false)) = some s2 := by
    rw [runLabels_append, h0]
    exact hrun
  have hb := h _ s2 hfull
  rw [hlen, hmax] at hb
  simp at hb

theorem drainGo_queue_short (writeOk : Json → Bool) (ts : Int) (sid : String) :
    ∀ (q : List Json) (st : EventsStore),
      (drainGo writeOk ts sid st q).2.length ≤ 1 := by
  intro q
  induction q with
  | nil => intro st; simp [drainGo]
  | cons e q ih =>
    intro st
    by_cases he : writeOk e = true
    · rw [show drainGo writeOk ts sid st (e :: q)
            = drainGo writeOk ts sid (addRecord st e ts sid) q from by simp [drainGo, he]]
      exact ih _
    · rw [show drainGo writeOk ts sid st (e :: q) = (st, [e]) from by
        simp [drainGo, he]]
      simp

/-- Claim C3, as amended: the 1000-entry bound with oldest-drop holds
after an enqueue while not ready, after a drain, and after a clear; but
the write-failure retry path while Ready appends to the queue without
enforcing the bound, so that path can grow the queue past 1000. -/
theorem c3_bound_amended :
    (∀ (m : MState) (e : Json) (ts : Int) (sid : String) (ok : Bool),
        (m.isReady = false ∨ m.db = none) → m.maxQueueSize = 1000 →
        m.eventQueue.length ≤ 1000 →
        ((saveEventPure m e ts sid ok).eventQueue.length ≤ 1000 ∧
         (saveEventPure m e ts sid ok).eventQueue <:+ (m.eventQueue ++ [e]) ∧
         e ∈ (saveEventPure m e ts sid ok).eventQueue)) ∧
    (∀ (m : MState) (e : Json) (ts : Int) (sid : String) (st : EventsStore),
        m.isReady = true → m.db = some st →
        (saveEventPure m e ts sid false).eventQueue = m.eventQueue ++ [e]) ∧
    (∀ (writeOk : Json → Bool) (ts : Int) (sid : String) (st : EventsStore) (q : List Json),
        (processEventQueue writeOk ts sid st q).2.length ≤ 1) ∧
    (∀ m : MState, (clearDatabasePure m).eventQueue = []) := by
  refine ⟨?_, ?_, ?_, ?_⟩
  · intro m e ts sid ok hnr hmax hlen
    have hq : (saveEventPure m e ts sid ok).eventQueue
        = trimToMax (m.eventQueue ++ [e]) m.maxQueueSize := by
      rcases hnr with h | h
      · simp [saveEventPure, h]
      · simp [saveEventPure, h]
    rw [hq, hmax, trimToMax_eq_drop _ _ 1000 (by omega)]
    refine ⟨?_, List.drop_suffix _ _, ?_⟩
    · simp [List.length_drop]
      omega
    · have hd : (m.eventQueue ++ [e]).length - 1000 ≤ m.eventQueue.length := by
        simp
      rw [List.drop_append_of_le_length hd]
      simp
  · intro m e ts sid st h1 h2
    simp [saveEventPure, h1, h2]
  · intro writeOk ts sid st q
    cases q with
    | nil => simp [processEventQueue]
    | cons e q =>
      rw [show processEventQueue writeOk ts sid st (e :: q)
            = drainGo writeOk ts sid st (e :: q) from by simp [processEventQueue]]
      exact drainGo_queue_short writeOk ts sid _ st
  · intro m
    rfl

/-- Witness for the amended C3: one instance of each of the four parts. -/
theorem c3_bound_amended_witness :
    ((saveEventPure initialMState Json.null 0 ("s") true).eventQueue.length ≤ 1000 ∧
     (saveEventPure initialMState Json.null 0 ("s") true).eventQueue
       <:+ (initialMState.eventQueue ++ [Json.null]) ∧
     Json.null ∈ (saveEventPure initialMState Json.null 0 ("s") true).eventQueue) ∧
    (saveEventPure c8FixtureState Json.null 0 ("s") false).eventQueue
      = c8FixtureState.eventQueue ++ [Json.null] ∧
    (processEventQueue (fun _ => true) 0 ("s") freshStore [Json.null]).2.length ≤ 1 ∧
    (clearDatabasePure initialMState).eventQueue = [] := by
  have h := c3_bound_amended
  exact ⟨h.1 initialMState Json.null 0 ("s") true (Or.inl rfl) rfl (by decide),
         h.2.1 c8FixtureState Json.null 0 ("s") { nextId := 5, records := c8FixtureRecords } rfl rfl,
         h.2.2.1 (fun _ => true) 0 ("s") freshStore [Json.null],
         h.2.2.2 initialMState⟩

/-- Claim C2, as amended: while initialization is already in flight
(Initializing) or already complete (Ready), a further `initialize()` call
performs no state change — manager fields and pending continuations are
untouched — and returns immediately in the very step of the call, without
waiting for the in-flight initialization to settle. -/
theorem c2_idempotent_returns_immediately (s : SysState) (cid : Nat)
    (h : s.m.isReady = true ∨ s.m.isInitializing = true) :
    applyLabel s (Label.callInit cid)
      = some { s with
          log := s.log ++ [TraceEv.initCalled cid, TraceEv.initReturned cid] } := by
  rcases h with h | h <;> simp [applyLabel, h]

/-- Witness for the amended C2: a second `initialize()` call in the
Initializing fixture state returns at once with no state change. -/
theorem c2_idempotent_returns_immediately_witness :
    applyLabel c2InflightSys (Label.callInit 1)
      = some { c2InflightSys with
          log := c2InflightSys.log ++ [TraceEv.initCalled 1, TraceEv.initReturned 1] } :=
  c2_idempotent_returns_immediately c2InflightSys 1 (Or.inr rfl)

/-- Counterexample to claim C2 as stated: a second `initialize()` call
made while the first is still awaiting `deleteDatabase` returns in the
very step of its call — `initReturned 1` is logged while the continuation
of call 0 is still pending — so it does not "return only once the
in-flight initialization has settled". -/
theorem c2_claim_counterexample : ¬ initCallAwaitsInflight := by
  intro h
  have h0 : runLabels sysInit [Label.callInit 0] = some c2InflightSys := by decide
  have h1 : applyLabel c2InflightSys (Label.callInit 1)
      = some { c2InflightSys with
          log := c2InflightSys.log ++ [TraceEv.initCalled 1, TraceEv.initReturned 1] } := by
    decide
  have h2 := h [Label.callInit 0] c2InflightSys
    { c2InflightSys with
        log := c2InflightSys.log ++ [TraceEv.initCalled 1, TraceEv.initReturned 1] }
    1 h0 rfl h1 (by decide) (0, TaskK.awaitDelete) (by decide)
  exact absurd h2 (by decide)

theorem mem_trimToMax_last (q : List Json) (e : Json) (max : Nat) :
    e ∈ trimToMax (q ++ [e]) max := by
  by_cases hm : max = 0
  · subst hm
    unfold trimToMax jsSliceLast
    by_cases h : (q ++ [e]).length > 0
    · rw [if_pos h, if_pos rfl]
      simp
    · simp
  · rw [trimToMax_eq_drop q e max (by omega)]
    rw [List.drop_append_of_le_length (by simp; omega)]
    simp

theorem machine_drain_all (ts : Int) (sid : String) (cid : Nat) :
    ∀ (batch : List Json) (s : SysState) (st : EventsStore),
      batch ≠ [] →
      s.tasks = [(cid, TaskK.draining batch)] → s.m.db = some st →
      ∃ s2, runLabels s (List.replicate batch.length (Label.drainOk cid ts sid)) = some s2
        ∧ s2.m.db = some (batch.foldl (fun acc e => addRecord acc e ts sid) st)
        ∧ s2.m.isReady = s.m.isReady
        ∧ s2.m.isInitializing = s.m.isInitializing
        ∧ s2.m.eventQueue = s.m.eventQueue
        ∧ s2.tasks = [] := by
  intro batch
  induction batch with
  | nil => intro s st h _ _; exact absurd rfl h
  | cons e rest ih =>
    intro s st _ htasks hdb
    cases rest with
    | nil =>
      have hstep : applyLabel s (Label.drainOk cid ts sid)
          = some { s with
              m := { s.m with db := some (addRecord st e ts sid) },
              tasks := [],
              log := s.log ++ [TraceEv.initReturned cid] } := by
        simp [applyLabel, hdb, htasks, dropTask]
      refine ⟨{ s with
              m := { s.m with db := some (addRecord st e ts sid) },
              tasks := [],
              log := s.log ++ [TraceEv.initReturned cid] }, ?_, rfl, rfl, rfl, rfl, rfl⟩
      show (match applyLabel s (Label.drainOk cid ts sid) with
            | some s3 => runLabels s3 []
            | none => none) = _
      rw [hstep]
      rfl
    | cons e2 rest2 =>
      have hstep : applyLabel s (Label.drainOk cid ts sid)
          = some { s with
              m := { s.m with db := some (addRecord st e ts sid) },
              tasks := [(cid, TaskK.draining (e2 :: rest2))] } := by
        simp [applyLabel, hdb, htasks, setTask]
      rcases ih { s with
              m := { s.m with db := some (addRecord st e ts sid) },
              tasks := [(cid, TaskK.draining (e2 :: rest2))] }
          (addRecord st e ts sid) (by simp) rfl rfl with ⟨s2, hrun, h1, h2, h3, h4, h5⟩
      refine ⟨s2, ?_, ?_, h2, h3, h4, h5⟩
      · rw [show (e :: e2 :: rest2).length = (e2 :: rest2).length + 1 from rfl,
          List.replicate_succ]
        show (match applyLabel s (Label.drainOk cid ts sid) with
              | some s3 => runLabels s3 (List.replicate (e2 :: rest2).length (Label.drainOk cid ts sid))
              | none => none) = some s2
        rw [hstep]
        exact hrun
      · rw [h1]
        simp [List.foldl_cons]

theorem reinit_drains_queue (s : SysState) (cid : Nat) (ts : Int) (sid : String)
    (h1 : s.m.isReady = false) (h2 : s.m.isInitializing = false) (h3 : s.tasks = []) :
    ∃ s2, runLabels s (reinitLabels cid ts sid s.m.eventQueue.length) = some s2
      ∧ s2.m.isReady = true ∧ s2.m.eventQueue = []
      ∧ ∃ st2, s2.m.db = some st2
          ∧ st2.records.map (fun r => r.data) = s.m.eventQueue := by
  have hA : applyLabel s (Label.callInit cid)
      = some { s with
          m := { s.m with isInitializing := true, db := none },
          tasks := [(cid, TaskK.awaitDelete)],
          log := s.log ++ [TraceEv.initCalled cid] } := by
    simp [applyLabel, h1, h2, h3]
  have hB : applyLabel
      { s with
        m := { s.m with isInitializing := true, db := none },
        tasks := [(cid, TaskK.awaitDelete)],
        log := s.log ++ [TraceEv.initCalled cid] } (Label.resolveDelete cid)
      = some { s with
          m := { s.m with isInitializing := true, db := none },
          tasks := [(cid, TaskK.awaitOpen)],
          log := s.log ++ [TraceEv.initCalled cid] } := by
    simp [applyLabel, setTask]
  cases hq : s.m.eventQueue with
  | nil =>
    have hC : applyLabel
        { s with
          m := { s.m with isInitializing := true, db := none },
          tasks := [(cid, TaskK.awaitOpen)],
          log := s.log ++ [TraceEv.initCalled cid] } (Label.resolveOpenOk cid)
        = some { s with
            m := { s.m with isInitializing := false, isReady := true, db := some freshStore },
            tasks := [],
            log := (s.log ++ [TraceEv.initCalled cid]) ++ [TraceEv.initReturned cid] } := by
      simp [applyLabel, hq, dropTask]
    refine ⟨{ s with
        m := { s.m with isInitializing := false, isReady := true, db := some freshStore },
        tasks := [],
        log := (s.log ++ [TraceEv.initCalled cid]) ++ [TraceEv.initReturned cid] },
      ?_, rfl, hq, freshStore, rfl, by simp [freshStore]⟩
    show (match applyLabel s (Label.callInit cid) with
          | some sx => runLabels sx [Label.resolveDelete cid, Label.resolveOpenOk cid]
          | none => none) = _
    rw [hA]
    show (match applyLabel _ (Label.resolveDelete cid) with
          | some sx => runLabels sx [Label.resolveOpenOk cid]
          | none => none) = _
    rw [hB]
    show (match applyLabel _ (Label.resolveOpenOk cid) with
          | some sx => runLabels sx []
          | none => none) = _
    rw [hC]
    rfl
  | cons e restq =>
    have hC : applyLabel
        { s with
          m := { s.m with isInitializing := true, db := none },
          tasks := [(cid, TaskK.awaitOpen)],
          log := s.log ++ [TraceEv.initCalled cid] } (Label.resolveOpenOk cid)
        = some { s with
            m := { s.m with isInitializing := false, isReady := true, db := some freshStore, eventQueue := [] },
            tasks := [(cid, TaskK.draining (e :: restq))],
            log := s.log ++ [TraceEv.initCalled cid] } := by
      simp [applyLabel, hq, setTask]
    rcases machine_drain_all ts sid cid (e :: restq)
        { s with
          m := { s.m with isInitializing := false, isReady := true, db := some freshStore, eventQueue := [] },
          tasks := [(cid, TaskK.draining (e :: restq))],
          log := s.log ++ [TraceEv.initCalled cid] }
        freshStore (by simp) rfl rfl with ⟨s2, hrun, hdb2, hready2, _, hqueue2, _⟩
    refine ⟨s2, ?_, hready2, hqueue2, _, hdb2, ?_⟩
    · show (match applyLabel s (Label.callInit cid) with
            | some sx => runLabels sx ([Label.resolveDelete cid, Label.resolveOpenOk cid]
                ++ List.replicate (e :: restq).length (Label.drainOk cid ts sid))
            | none => none) = _
      rw [hA]
      show (match applyLabel _ (Label.resolveDelete cid) with
            | some sx => runLabels sx ([Label.resolveOpenOk cid]
                ++ List.replicate (e :: restq).length (Label.drainOk cid ts sid))
            | none => none) = _
      rw [hB]
      show (match applyLabel _ (Label.resolveOpenOk cid) with
            | some sx => runLabels sx (List.replicate (e :: restq).length (Label.drainOk cid ts sid))
            | none => none) = _
      rw [hC]
      exact hrun
    · rw [foldl_addRecord_data]
      simp [freshStore]

/-- Claim C5: `clearDatabase()` synchronously flips the manager to
not-ready, drops the handle and empties the queue before its asynchronous
destroy resolves (the destroy is still pending in the very next state);
resolution of the destroy changes no manager state (no re-initialize);
every `saveEvent` issued while not ready is enqueued — it lands at the
tail of the queue and nothing is written to any store; and from such a
state a successful re-initialization drains exactly the queued events, in
order, into the fresh store. -/
theorem c5_clear_then_save_semantics :
    (∀ (s : SysState) (cid : Nat),
        applyLabel s (Label.callClear cid)
          = some { m := clearDatabasePure s.m,
                   tasks := s.tasks ++ [(cid, TaskK.clearAwaitDelete)],
                   log := s.log ++ [TraceEv.clearCalled cid] } ∧
        (clearDatabasePure s.m).isReady = false ∧
        (clearDatabasePure s.m).isInitializing = false ∧
        (clearDatabasePure s.m).db = none ∧
        (clearDatabasePure s.m).eventQueue = []) ∧
    (∀ (s s2 : SysState) (cid : Nat),
        applyLabel s (Label.resolveClearDelete cid) = some s2 → s2.m = s.m) ∧
    (∀ (s : SysState) (e : Json) (ts : Int) (sid : String) (ok : Bool) (s2 : SysState),
        s.m.isReady = false →
        applyLabel s (Label.callSave e ts sid ok) = some s2 →
        (s2.m.eventQueue = trimToMax (s.m.eventQueue ++ [e]) s.m.maxQueueSize ∧
         e ∈ s2.m.eventQueue ∧ s2.m.db = s.m.db)) ∧
    (∀ (s : SysState) (cid : Nat) (ts : Int) (sid : String),
        s.m.isReady = false → s.m.isInitializing = false → s.tasks = [] →
        ∃ s2, runLabels s (reinitLabels cid ts sid s.m.eventQueue.length) = some s2
          ∧ s2.m.isReady = true ∧ s2.m.eventQueue = []
          ∧ ∃ st2, s2.m.db = some st2
              ∧ st2.records.map (fun r => r.data) = s.m.eventQueue) := by
  refine ⟨?_, ?_, ?_, ?_⟩
  · intro s cid
    exact ⟨rfl, rfl, rfl, rfl, rfl⟩
  · intro s s2 cid h
    by_cases hc : (cid, TaskK.clearAwaitDelete) ∈ s.tasks
    · rw [show applyLabel s (Label.resolveClearDelete cid)
            = some { s with
                tasks := dropTask s.tasks cid,
                log := s.log ++ [TraceEv.clearReturned cid] } from by
          simp [applyLabel, hc]] at h
      injection h with h
      rw [← h]
    · rw [show applyLabel s (Label.resolveClearDelete cid) = none from by
          simp [applyLabel, hc]] at h
      cases h
  · intro s e ts sid ok s2 hr h
    have hsave : saveEventPure s.m e ts sid ok
        = { s.m with eventQueue := trimToMax (s.m.eventQueue ++ [e]) s.m.maxQueueSize } := by
      simp [saveEventPure, hr]
    rw [show applyLabel s (Label.callSave e ts sid ok)
          = some { s with m := saveEventPure s.m e ts sid ok } from rfl, hsave] at h
    injection h with h
    rw [← h]
    exact ⟨rfl, mem_trimToMax_last _ _ _, rfl⟩
  · intro s cid ts sid hr hi ht
    exact reinit_drains_queue s cid ts sid hr hi ht

/-- Witness for C5: clearing a ready system, resolving its destroy,
saving into the cleared system, and re-initializing the queued fixture. -/
theorem c5_clear_then_save_semantics_witness :
    (applyLabel { m := c8FixtureState, tasks := [], log := [] } (Label.callClear 7)
        = some { m := clearDatabasePure c8FixtureState,
                 tasks := [] ++ [(7, TaskK.clearAwaitDelete)],
                 log := [] ++ [TraceEv.clearCalled 7] } ∧
      (clearDatabasePure c8FixtureState).isReady = false ∧
      (clearDatabasePure c8FixtureState).isInitializing = false ∧
      (clearDatabasePure c8FixtureState).db = none ∧
      (clearDatabasePure c8FixtureState).eventQueue = []) ∧
    ({ c5ClearedSys with tasks := [], log := c5ClearedSys.log ++ [TraceEv.clearReturned 7] } : SysState).m
      = c5ClearedSys.m ∧
    (({ c5ClearedSys with
        m := { c5ClearedSys.m with
               eventQueue := trimToMax (c5ClearedSys.m.eventQueue ++ [Json.num 9]) 1000 } } : SysState).m.eventQueue
        = trimToMax (c5ClearedSys.m.eventQueue ++ [Json.num 9]) c5ClearedSys.m.maxQueueSize ∧
      Json.num 9 ∈ ({ c5ClearedSys with
        m := { c5ClearedSys.m with
               eventQueue := trimToMax (c5ClearedSys.m.eventQueue ++ [Json.num 9]) 1000 } } : SysState).m.eventQueue ∧
      ({ c5ClearedSys with
        m := { c5ClearedSys.m with
               eventQueue := trimToMax (c5ClearedSys.m.eventQueue ++ [Json.num 9]) 1000 } } : SysState).m.db
        = c5ClearedSys.m.db) ∧
    (∃ s2, runLabels c5QueuedSys (reinitLabels 8 0 ("s") c5QueuedSys.m.eventQueue.length) = some s2
      ∧ s2.m.isReady = true ∧ s2.m.eventQueue = []
      ∧ ∃ st2, s2.m.db = some st2
          ∧ st2.records.map (fun r => r.data) = c5QueuedSys.m.eventQueue) := by
  have h := c5_clear_then_save_semantics
  refine ⟨h.1 { m := c8FixtureState, tasks := [], log := [] } 7, ?_, ?_, ?_⟩
  · exact h.2.1 c5ClearedSys
      { c5ClearedSys with tasks := [], log := c5ClearedSys.log ++ [TraceEv.clearReturned 7] }
      7 (by decide)
  · exact h.2.2.1 c5ClearedSys (Json.num 9) 0 ("s") true
      { c5ClearedSys with
        m := { c5ClearedSys.m with
               eventQueue := trimToMax (c5ClearedSys.m.eventQueue ++ [Json.num 9]) 1000 } }
      rfl (by decide)
  · exact h.2.2.2 c5QueuedSys 8 0 ("s") rfl rfl rfl

theorem sizeJ_pos (j : Json) : 1 ≤ sizeJ j := by
  cases j <;> simp [sizeJ]

theorem jlAppend_concat (x : Json) :
    ∀ acc : JsonList, jlAppend acc x = jlConcat acc (.cons x .nil)
  | .nil => rfl
  | .cons y ys => by simp [jlAppend, jlConcat, jlAppend_concat x ys]

theorem jlConcat_append (x : Json) (l : JsonList) :
    ∀ acc : JsonList, jlConcat (jlAppend acc x) l = jlConcat acc (.cons x l)
  | .nil => rfl
  | .cons y ys => by simp [jlAppend, jlConcat, jlConcat_append x l ys]

theorem jmAppend_concat (k : String) (v : Json) :
    ∀ acc : JsonMembers, jmAppend acc k v = jmConcat acc (.cons k v .nil)
  | .nil => rfl
  | .cons k2 v2 tl => by simp [jmAppend, jmConcat, jmAppend_concat k v tl]

theorem jmConcat_append (k : String) (v : Json) (l : JsonMembers) :
    ∀ acc : JsonMembers, jmConcat (jmAppend acc k v) l = jmConcat acc (.cons k v l)
  | .nil => rfl
  | .cons k2 v2 tl => by simp [jmAppend, jmConcat, jmConcat_append k v l tl]

theorem string_mk_data (s : String) : String.mk s.data = s := rfl

theorem skipWs_ws_head :
    ∀ (w l : List Char), allWsChars w → skipWs (w ++ l) = skipWs l := by
  intro w
  induction w with
  | nil => intro l _; rfl
  | cons c cs ih =>
    intro l h
    have hc : isWsChar c = true := h c (by simp)
    simp [skipWs, hc]
    exact ih l (fun c2 h2 => h c2 (by simp [h2]))

theorem skipWs_nonws (c : Char) (cs : List Char) (h : isWsChar c = false) :
    skipWs (c :: cs) = c :: cs := by
  simp [skipWs, h]

theorem allWsChars_nil : allWsChars [] := by
  intro c h
  cases h

theorem allWsChars_append (w1 w2 : List Char) (h1 : allWsChars w1) (h2 : allWsChars w2) :
    allWsChars (w1 ++ w2) := by
  intro c h
  rcases List.mem_append.mp h with h3 | h3
  · exact h1 c h3
  · exact h2 c h3

theorem allWsChars_gap2 : allWsChars gap2 := by
  intro c h
  rcases h with _ | ⟨_, h⟩
  · rfl
  · rcases h with _ | ⟨_, h⟩
    · rfl
    · cases h

theorem parseVal_ws_head (fuel : Nat) (w cs : List Char) (hw : allWsChars w) :
    parseVal fuel (w ++ cs) = parseVal fuel cs := by
  cases fuel with
  | zero => rfl
  | succ fuel =>
    show (match skipWs (w ++ cs) with
          | [] => none
          | c :: r => _) = _
    rw [skipWs_ws_head w cs hw]
    rfl

theorem digitChar_props : ∀ k, k < 10 →
    (isDigitChar (Char.ofNat (48 + k)) = true ∧ digitVal (Char.ofNat (48 + k)) = k) := by
  decide

theorem isDigitChar_facts (c : Char) (h : isDigitChar c = true) :
    isWsChar c = false ∧ ¬ c = 'n' ∧ ¬ c = 't' ∧ ¬ c = 'f' ∧ ¬ c = '\x22'
      ∧ ¬ c = '[' ∧ ¬ c = '\x7b' ∧ ¬ c = '-' ∧ ¬ c = ']' ∧ ¬ c = '\x7d' := by
  have hb : 48 ≤ c.toNat ∧ c.toNat ≤ 57 := by
    unfold isDigitChar at h
    simp at h
    exact h
  have hsp : ¬ c = ' ' := fun he => by subst he; exact absurd hb (by decide)
  have hnl : ¬ c = '\x0a' := fun he => by subst he; exact absurd hb (by decide)
  have hcr : ¬ c = '\x0d' := fun he => by subst he; exact absurd hb (by decide)
  have htb : ¬ c = '\x09' := fun he => by subst he; exact absurd hb (by decide)
  refine ⟨by simp [isWsChar, hsp, hnl, hcr, htb], ?_, ?_, ?_, ?_, ?_, ?_, ?_, ?_, ?_⟩
  all_goals intro he
  all_goals subst he
  all_goals exact absurd hb (by decide)

theorem natDigits_head : ∀ n : Nat, ∃ c cs, natDigits n = c :: cs ∧ isDigitChar c = true := by
  intro n
  induction n using Nat.strong_induction_on with
  | _ n ih =>
    by_cases h : n < 10
    · exact ⟨Char.ofNat (48 + n), [], by rw [natDigits]; simp [h], (digitChar_props n h).1⟩
    · rcases ih (n / 10) (Nat.div_lt_self (by omega) (by omega)) with ⟨c, cs, heq, hdig⟩
      refine ⟨c, cs ++ [Char.ofNat (48 + n % 10)], ?_, hdig⟩
      rw [show natDigits n = natDigits (n / 10) ++ [Char.ofNat (48 + n % 10)] from by
        rw [natDigits]; simp [h]]
      rw [heq]
      rfl

theorem parseDigitsGo_stop (acc : Nat) (rest : List Char) (h : notDigitStart rest) :
    parseDigitsGo acc rest = (acc, rest) := by
  cases rest with
  | nil => rfl
  | cons c cs =>
    unfold notDigitStart at h
    simp [parseDigitsGo, h]

theorem parseDigitsGo_natDigits : ∀ m acc (rest : List Char),
    parseDigitsGo acc (natDigits m ++ rest)
      = parseDigitsGo (acc * 10 ^ (natDigits m).length + m) rest := by
  intro m
  induction m using Nat.strong_induction_on with
  | _ m ih =>
    intro acc rest
    by_cases h : m < 10
    · rw [show natDigits m = [Char.ofNat (48 + m)] from by rw [natDigits]; simp [h]]
      have hd := digitChar_props m h
      simp [parseDigitsGo, hd.1, hd.2]
    · rw [show natDigits m = natDigits (m / 10) ++ [Char.ofNat (48 + m % 10)] from by
        rw [natDigits]; simp [h]]
      rw [List.append_assoc]
      rw [ih (m / 10) (Nat.div_lt_self (by omega) (by omega))]
      have hd := digitChar_props (m % 10) (Nat.mod_lt _ (by omega))
      rw [show parseDigitsGo (acc * 10 ^ (natDigits (m / 10)).length + m / 10)
            ([Char.ofNat (48 + m % 10)] ++ rest)
          = parseDigitsGo ((acc * 10 ^ (natDigits (m / 10)).length + m / 10) * 10 + m % 10)
              rest from by
        simp [parseDigitsGo, hd.1, hd.2]]
      congr 1
      have hdm := Nat.div_add_mod m 10
      rw [List.length_append]
      calc (acc * 10 ^ (natDigits (m / 10)).length + m / 10) * 10 + m % 10
          = acc * (10 ^ (natDigits (m / 10)).length * 10) + (10 * (m / 10) + m % 10) := by
            ring
        _ = acc * 10 ^ ((natDigits (m / 10)).length + 1) + m := by rw [hdm, pow_succ]

theorem parseDigits_natDigits (m : Nat) (rest : List Char) (h : notDigitStart rest) :
    parseDigits (natDigits m ++ rest) = some (m, rest) := by
  rcases natDigits_head m with ⟨c, cs, heq, hdig⟩
  rw [heq, List.cons_append]
  rw [show parseDigits (c :: (cs ++ rest)) = some (parseDigitsGo 0 (c :: (cs ++ rest))) from by
    simp [parseDigits, hdig]]
  rw [← List.cons_append, ← heq, parseDigitsGo_natDigits]
  simp [parseDigitsGo_stop _ _ h]

theorem hexDigitChar_props : ∀ k, k < 16 → hexVal (hexDigitChar k) = some k := by
  decide

theorem escapeChar_parse (c : Char) (rest : List Char) :
    parseStringBody (escapeChar c ++ rest) = consCont c (parseStringBody rest) := by
  by_cases h1 : c = '\x22'
  · subst h1
    have e1 : escapeChar '\x22' = ['\\', '\x22'] := by decide
    have e2 : ¬ ('\\' : Char) = '\x22' := by decide
    have e3 : ¬ ('\x22' : Char) = 'u' := by decide
    have e4 : unescapeChar '\x22' = some '\x22' := by decide
    rw [e1, List.cons_append, List.cons_append, parseStringBody.eq_def]
    simp [e2, e3, e4]
  by_cases h2 : c = '\\'
  · subst h2
    have e1 : escapeChar '\\' = ['\\', '\\'] := by decide
    have e2 : ¬ ('\\' : Char) = '\x22' := by decide
    have e3 : ¬ ('\\' : Char) = 'u' := by decide
    have e4 : unescapeChar '\\' = some '\\' := by decide
    rw [e1, List.cons_append, List.cons_append, parseStringBody.eq_def]
    simp [e2, e3, e4]
  by_cases h3 : c = '\x08'
  · subst h3
    have e1 : escapeChar '\x08' = ['\\', 'b'] := by decide
    have e2 : ¬ ('\\' : Char) = '\x22' := by decide
    have e3 : ¬ ('b' : Char) = 'u' := by decide
    have e4 : unescapeChar 'b' = some '\x08' := by decide
    rw [e1, List.cons_append, List.cons_append, parseStringBody.eq_def]
    simp [e2, e3, e4]
  by_cases h4 : c = '\x09'
  · subst h4
    have e1 : escapeChar '\x09' = ['\\', 't'] := by decide
    have e2 : ¬ ('\\' : Char) = '\x22' := by decide
    have e3 : ¬ ('t' : Char) = 'u' := by decide
    have e4 : unescapeChar 't' = some '\x09' := by decide
    rw [e1, List.cons_append, List.cons_append, parseStringBody.eq_def]
    simp [e2, e3, e4]
  by_cases h5 : c = '\x0a'
  · subst h5
    have e1 : escapeChar '\x0a' = ['\\', 'n'] := by decide
    have e2 : ¬ ('\\' : Char) = '\x22' := by decide
    have e3 : ¬ ('n' : Char) = 'u' := by decide
    have e4 : unescapeChar 'n' = some '\x0a' := by decide
    rw [e1, List.cons_append, List.cons_append, parseStringBody.eq_def]
    simp [e2, e3, e4]
  by_cases h6 : c = '\x0c'
  · subst h6
    have e1 : escapeChar '\x0c' = ['\\', 'f'] := by decide
    have e2 : ¬ ('\\' : Char) = '\x22' := by decide
    have e3 : ¬ ('f' : Char) = 'u' := by decide
    have e4 : unescapeChar 'f' = some '\x0c' := by decide
    rw [e1, List.cons_append, List.cons_append, parseStringBody.eq_def]
    simp [e2, e3, e4]
  by_cases h7 : c = '\x0d'
  · subst h7
    have e1 : escapeChar '\x0d' = ['\\', 'r'] := by decide
    have e2 : ¬ ('\\' : Char) = '\x22' := by decide
    have e3 : ¬ ('r' : Char) = 'u' := by decide
    have e4 : unescapeChar 'r' = some '\x0d' := by decide
    rw [e1, List.cons_append, List.cons_append, parseStringBody.eq_def]
    simp [e2, e3, e4]
  by_cases h8 : c.toNat < 32
  · rw [show escapeChar c
        = ['\\', 'u', '0', '0', hexDigitChar (c.toNat / 16), hexDigitChar (c.toNat % 16)] from by
      simp [escapeChar, h1, h2, h3, h4, h5, h6, h7, h8]]
    have hd1 : hexVal (hexDigitChar (c.toNat / 16)) = some (c.toNat / 16) :=
      hexDigitChar_props _ (by omega)
    have hd2 : hexVal (hexDigitChar (c.toNat % 16)) = some (c.toNat % 16) :=
      hexDigitChar_props _ (Nat.mod_lt _ (by omega))
    have hcode : c.toNat / 16 * 16 + c.toNat % 16 = c.toNat := by
      have := Nat.div_add_mod c.toNat 16
      omega
    have hvalid : (c.toNat / 16 * 16 + c.toNat % 16).isValidChar := by
      rw [hcode]
      exact Or.inl (by omega)
    have hA : ¬ ('\\' : Char) = '\x22' := by decide
    simp only [List.cons_append]
    have h0 : hexVal '0' = some 0 := by decide
    rw [parseStringBody.eq_def]
    simp [hA, h0, hd1, hd2, hvalid, hcode, Char.ofNat_toNat]
    intro h9 _
    exact absurd h9 (by omega)
  · rw [show escapeChar c = [c] from by simp [escapeChar, h1, h2, h3, h4, h5, h6, h7, h8],
      List.singleton_append, parseStringBody.eq_def]
    simp [h1, h2]

theorem escapeList_parse :
    ∀ (l rest : List Char),
      parseStringBody (escapeList l ++ ('\x22' :: rest)) = some (l, rest) := by
  intro l
  induction l with
  | nil =>
    intro rest
    rw [show escapeList [] ++ ('\x22' :: rest) = '\x22' :: rest from rfl, parseStringBody.eq_def]
    simp
  | cons c cs ih =>
    intro rest
    rw [show escapeList (c :: cs) = escapeChar c ++ escapeList cs from rfl, List.append_assoc,
      escapeChar_parse, ih]
    rfl

theorem serValue_head (ind : List Char) (j : Json) :
    ∃ c cs, serValue ind j = c :: cs ∧ isWsChar c = false ∧ ¬ c = ']' ∧ ¬ c = '\x7d' := by
  cases j with
  | null => exact ⟨'n', _, rfl, by decide, by decide, by decide⟩
  | bool b =>
    cases b with
    | false => exact ⟨'f', _, rfl, by decide, by decide, by decide⟩
    | true => exact ⟨'t', _, rfl, by decide, by decide, by decide⟩
  | num n =>
    by_cases hn : n < 0
    · refine ⟨'-', natDigits n.natAbs, ?_, by decide, by decide, by decide⟩
      simp [serValue, intChars, hn]
    · rcases natDigits_head n.toNat with ⟨c, cs, heq, hdig⟩
      have hf := isDigitChar_facts c hdig
      refine ⟨c, cs, ?_, hf.1, hf.2.2.2.2.2.2.2.2.1, hf.2.2.2.2.2.2.2.2.2⟩
      simp [serValue, intChars, hn, heq]
  | str s => exact ⟨'\x22', _, rfl, by decide, by decide, by decide⟩
  | arr xs =>
    cases xs with
    | nil => exact ⟨'[', _, rfl, by decide, by decide, by decide⟩
    | cons x xs2 => exact ⟨'[', _, rfl, by decide, by decide, by decide⟩
  | obj kvs =>
    cases kvs with
    | nil => exact ⟨'\x7b', _, rfl, by decide, by decide, by decide⟩
    | cons k v kvs2 => exact ⟨'\x7b', _, rfl, by decide, by decide, by decide⟩

theorem allWsChars_cons (c : Char) (w : List Char) (hc : isWsChar c = true)
    (hw : allWsChars w) : allWsChars (c :: w) := by
  intro c2 h
  rcases List.mem_cons.mp h with h2 | h2
  · rw [h2]; exact hc
  · exact hw c2 h2

theorem notDigitStart_elems (ind2 : List Char) (xs : JsonList) (z : List Char) :
    notDigitStart (serElems ind2 xs ++ ('\x0a' :: z)) := by
  cases xs with
  | nil => exact (show isDigitChar '\x0a' = false from by decide)
  | cons a b => exact (show isDigitChar ',' = false from by decide)

theorem notDigitStart_members (ind2 : List Char) (kvs : JsonMembers) (z : List Char) :
    notDigitStart (serMembers ind2 kvs ++ ('\x0a' :: z)) := by
  cases kvs with
  | nil => exact (show isDigitChar '\x0a' = false from by decide)
  | cons k v b => exact (show isDigitChar ',' = false from by decide)

theorem parseVal_succ_lb (fuel : Nat) (r : List Char) :
    parseVal (fuel + 1) ('[' :: r)
      = (match skipWs r with
         | [] => none
         | c2 :: r2 => if c2 = ']' then some (Json.arr .nil, r2)
             else parseElems fuel .nil (c2 :: r2)) := by
  rw [parseVal.eq_def]
  simp [skipWs, isWsChar]

theorem parseVal_succ_lcb (fuel : Nat) (r : List Char) :
    parseVal (fuel + 1) ('\x7b' :: r)
      = (match skipWs r with
         | [] => none
         | c2 :: r2 => if c2 = '\x7d' then some (Json.obj .nil, r2)
             else parseMembers fuel .nil (c2 :: r2)) := by
  rw [parseVal.eq_def]
  simp [skipWs, isWsChar]

theorem parseElems_succ (fuel : Nat) (acc : JsonList) (cs : List Char) (x : Json)
    (R : List Char) (h : parseVal fuel cs = some (x, R)) :
    parseElems (fuel + 1) acc cs
      = (match skipWs R with
         | [] => none
         | c :: r2 =>
           if c = ',' then parseElems fuel (jlAppend acc x) r2
           else if c = ']' then some (Json.arr (jlAppend acc x), r2)
           else none) := by
  rw [parseElems.eq_def]
  simp [h]

theorem parseMembers_succ (fuel : Nat) (acc : JsonMembers) (cs r r1 : List Char)
    (k : List Char) (h1 : skipWs cs = '\x22' :: r) (h2 : parseStringBody r = some (k, r1)) :
    parseMembers (fuel + 1) acc cs
      = (match skipWs r1 with
         | [] => none
         | c1 :: r2 =>
           if c1 = ':' then
             match parseVal fuel r2 with
             | none => none
             | some (v, r3) =>
               match skipWs r3 with
               | [] => none
               | c2 :: r4 =>
                 if c2 = ',' then parseMembers fuel (jmAppend acc (String.mk k) v) r4
                 else if c2 = '\x7d' then some (Json.obj (jmAppend acc (String.mk k) v), r4)
                 else none
           else none) := by
  rw [parseMembers.eq_def]
  simp [h1, h2]

theorem skipWs_cons_ws (c : Char) (l : List Char) (h : isWsChar c = true) :
    skipWs (c :: l) = skipWs l := by
  simp [skipWs, h]

theorem parseElems_step_comma (fuel : Nat) (acc : JsonList) (cs : List Char) (x : Json)
    (R r2 : List Char) (h : parseVal fuel cs = some (x, R)) (h2 : skipWs R = ',' :: r2) :
    parseElems (fuel + 1) acc cs = parseElems fuel (jlAppend acc x) r2 := by
  rw [parseElems.eq_def]
  simp [h, h2]

theorem parseElems_step_rb (fuel : Nat) (acc : JsonList) (cs : List Char) (x : Json)
    (R r2 : List Char) (h : parseVal fuel cs = some (x, R)) (h2 : skipWs R = ']' :: r2) :
    parseElems (fuel + 1) acc cs = some (Json.arr (jlAppend acc x), r2) := by
  rw [parseElems.eq_def]
  simp [h, h2]

theorem parseMembers_step_comma (fuel : Nat) (acc : JsonMembers) (cs r r1 r2 r3 r4 : List Char)
    (k : List Char) (v : Json)
    (h1 : skipWs cs = '\x22' :: r) (h2 : parseStringBody r = some (k, r1))
    (h3 : skipWs r1 = ':' :: r2) (h4 : parseVal fuel r2 = some (v, r3))
    (h5 : skipWs r3 = ',' :: r4) :
    parseMembers (fuel + 1) acc cs = parseMembers fuel (jmAppend acc (String.mk k) v) r4 := by
  rw [parseMembers.eq_def]
  simp [h1, h2, h3, h4, h5]

theorem parseMembers_step_rcb (fuel : Nat) (acc : JsonMembers) (cs r r1 r2 r3 r4 : List Char)
    (k : List Char) (v : Json)
    (h1 : skipWs cs = '\x22' :: r) (h2 : parseStringBody r = some (k, r1))
    (h3 : skipWs r1 = ':' :: r2) (h4 : parseVal fuel r2 = some (v, r3))
    (h5 : skipWs r3 = '\x7d' :: r4) :
    parseMembers (fuel + 1) acc cs
      = some (Json.obj (jmAppend acc (String.mk k) v), r4) := by
  rw [parseMembers.eq_def]
  simp [h1, h2, h3, h4, h5]

theorem parseVal_arr_step (fuel : Nat) (cs r : List Char) (c2 : Char) (r2 : List Char)
    (h0 : skipWs cs = '[' :: r) (h1 : skipWs r = c2 :: r2) (h2 : ¬ c2 = ']') :
    parseVal (fuel + 1) cs = parseElems fuel .nil (c2 :: r2) := by
  rw [parseVal.eq_def]
  simp [h0, h1, h2]

theorem parseVal_obj_step (fuel : Nat) (cs r : List Char) (c2 : Char) (r2 : List Char)
    (h0 : skipWs cs = '\x7b' :: r) (h1 : skipWs r = c2 :: r2) (h2 : ¬ c2 = '\x7d') :
    parseVal (fuel + 1) cs = parseMembers fuel .nil (c2 :: r2) := by
  rw [parseVal.eq_def]
  simp [h0, h1, h2]

/-- Master roundtrip: with enough fuel, parsing the serialized form of a
value (or of a serialized element/member tail) recovers it exactly. -/
theorem parse_serValue : ∀ fuel : Nat,
    (∀ (j : Json) (ind rest : List Char), allWsChars ind → notDigitStart rest →
      sizeJ j ≤ fuel → parseVal fuel (serValue ind j ++ rest) = some (j, rest)) ∧
    (∀ (w : List Char) (x : Json) (xs : JsonList) (acc : JsonList) (ind ind2 rest : List Char),
      allWsChars w → allWsChars ind → allWsChars ind2 →
      sizeJ x + sizeJL xs + 1 ≤ fuel →
      parseElems fuel acc
          (w ++ (serValue ind2 x ++ (serElems ind2 xs ++ ('\x0a' :: (ind ++ (']' :: rest))))))
        = some (Json.arr (jlConcat acc (JsonList.cons x xs)), rest)) ∧
    (∀ (w : List Char) (k : String) (v : Json) (kvs : JsonMembers) (acc : JsonMembers)
        (ind ind2 rest : List Char),
      allWsChars w → allWsChars ind → allWsChars ind2 →
      sizeJ v + sizeJM kvs + 1 ≤ fuel →
      parseMembers fuel acc
          (w ++ (serMember ind2 k v
            ++ (serMembers ind2 kvs ++ ('\x0a' :: (ind ++ ('\x7d' :: rest))))))
        = some (Json.obj (jmConcat acc (JsonMembers.cons k v kvs)), rest)) := by
  intro fuel
  induction fuel with
  | zero =>
    refine ⟨?_, ?_, ?_⟩
    · intro j ind rest _ _ hsz
      have := sizeJ_pos j
      exact absurd hsz (by omega)
    · intro w x xs acc ind ind2 rest _ _ _ hsz
      exact absurd hsz (by omega)
    · intro w k v kvs acc ind ind2 rest _ _ _ hsz
      exact absurd hsz (by omega)
  | succ fuel ih =>
    obtain ⟨ih1, ih2, ih3⟩ := ih
    refine ⟨?_, ?_, ?_⟩
    · -- parseVal on serValue
      intro j ind rest hind hrest hsz
      cases j with
      | null =>
        rw [show serValue ind Json.null ++ rest
            = 'n' :: ('u' :: ('l' :: ('l' :: rest))) from rfl]
        rw [parseVal.eq_def]
        simp [skipWs, isWsChar, expectChars]
      | bool b =>
        cases b with
        | true =>
          rw [show serValue ind (Json.bool true) ++ rest
              = 't' :: ('r' :: ('u' :: ('e' :: rest))) from rfl]
          rw [parseVal.eq_def]
          simp [skipWs, isWsChar, expectChars]
        | false =>
          rw [show serValue ind (Json.bool false) ++ rest
              = 'f' :: ('a' :: ('l' :: ('s' :: ('e' :: rest)))) from rfl]
          rw [parseVal.eq_def]
          simp [skipWs, isWsChar, expectChars]
      | num n =>
        by_cases hn : n < 0
        · rw [show serValue ind (Json.num n) ++ rest
              = '-' :: (natDigits n.natAbs ++ rest) from by simp [serValue, intChars, hn]]
          rw [parseVal.eq_def]
          have hpd := parseDigits_natDigits n.natAbs rest hrest
          simp [skipWs, isWsChar, hpd]
          rw [abs_of_neg hn, neg_neg]
        · rcases natDigits_head n.toNat with ⟨c, cs, heq, hdig⟩
          have hf := isDigitChar_facts c hdig
          have hpd : parseDigits (c :: (cs ++ rest)) = some (n.toNat, rest) := by
            rw [← List.cons_append, ← heq]
            exact parseDigits_natDigits n.toNat rest hrest
          rw [show serValue ind (Json.num n) ++ rest = c :: (cs ++ rest) from by
            simp [serValue, intChars, hn, heq]]
          rw [parseVal.eq_def]
          simp [skipWs, hf.1, hf.2.1, hf.2.2.1, hf.2.2.2.1, hf.2.2.2.2.1, hf.2.2.2.2.2.1,
            hf.2.2.2.2.2.2.1, hf.2.2.2.2.2.2.2.1, hdig, hpd]
          omega
      | str s =>
        have hps := escapeList_parse s.data rest
        rw [show serValue ind (Json.str s) ++ rest
            = '\x22' :: (escapeList s.data ++ ('\x22' :: rest)) from by
          simp [serValue, quoteChars]]
        rw [parseVal.eq_def]
        simp [skipWs, isWsChar, hps, string_mk_data]
      | arr xs =>
        cases xs with
        | nil =>
          rw [show serValue ind (Json.arr JsonList.nil) ++ rest = '[' :: (']' :: rest) from by
            simp [serValue]]
          rw [parseVal_succ_lb, skipWs_nonws _ _ (by decide)]
          simp
        | cons x xs2 =>
          have hsz2 : sizeJ x + sizeJL xs2 + 1 ≤ fuel := by
            rw [show sizeJ (Json.arr (JsonList.cons x xs2))
                = 1 + (1 + sizeJ x + sizeJL xs2) from by simp [sizeJ, sizeJL]] at hsz
            omega
          have hind2 : allWsChars (ind ++ gap2) := allWsChars_append _ _ hind allWsChars_gap2
          rcases serValue_head (ind ++ gap2) x with ⟨c, cs0, heqx, hnws, hneRB, hneCB⟩
          have hshape : serValue ind (Json.arr (JsonList.cons x xs2)) ++ rest
              = '[' :: ('\x0a' :: (ind ++ (gap2 ++ (serValue (ind ++ gap2) x
                  ++ (serElems (ind ++ gap2) xs2 ++ ('\x0a' :: (ind ++ (']' :: rest)))))))) := by
            simp [serValue]
          have h1 : skipWs ('\x0a' :: (ind ++ (gap2 ++ (serValue (ind ++ gap2) x
                  ++ (serElems (ind ++ gap2) xs2 ++ ('\x0a' :: (ind ++ (']' :: rest))))))))
              = c :: (cs0 ++ (serElems (ind ++ gap2) xs2
                  ++ ('\x0a' :: (ind ++ (']' :: rest))))) := by
            rw [skipWs_cons_ws _ _ (by decide), skipWs_ws_head _ _ hind,
              skipWs_ws_head _ _ allWsChars_gap2, heqx, List.cons_append,
              skipWs_nonws _ _ hnws]
          rw [hshape, parseVal_arr_step fuel _ _ c _ (skipWs_nonws _ _ (by decide)) h1 hneRB]
          rw [← List.cons_append, ← heqx]
          have key := ih2 [] x xs2 JsonList.nil ind (ind ++ gap2) rest
            allWsChars_nil hind hind2 hsz2
          rw [List.nil_append] at key
          rw [key]
          rfl
      | obj kvs =>
        cases kvs with
        | nil =>
          rw [show serValue ind (Json.obj JsonMembers.nil) ++ rest
              = '\x7b' :: ('\x7d' :: rest) from by simp [serValue]]
          rw [parseVal_succ_lcb, skipWs_nonws _ _ (by decide)]
          simp
        | cons k v kvs2 =>
          have hsz2 : sizeJ v + sizeJM kvs2 + 1 ≤ fuel := by
            rw [show sizeJ (Json.obj (JsonMembers.cons k v kvs2))
                = 1 + (1 + sizeJ v + sizeJM kvs2) from by simp [sizeJ, sizeJM]] at hsz
            omega
          have hind2 : allWsChars (ind ++ gap2) := allWsChars_append _ _ hind allWsChars_gap2
          have hshape : serValue ind (Json.obj (JsonMembers.cons k v kvs2)) ++ rest
              = '\x7b' :: ('\x0a' :: (ind ++ (gap2 ++ (serMember (ind ++ gap2) k v
                  ++ (serMembers (ind ++ gap2) kvs2
                      ++ ('\x0a' :: (ind ++ ('\x7d' :: rest)))))))) := by
            simp [serValue, serMember]
          have h1 : skipWs ('\x0a' :: (ind ++ (gap2 ++ (serMember (ind ++ gap2) k v
                  ++ (serMembers (ind ++ gap2) kvs2 ++ ('\x0a' :: (ind ++ ('\x7d' :: rest))))))))
              = '\x22' :: (escapeList k.data ++ ('\x22' :: (':' :: (' '
                  :: (serValue (ind ++ gap2) v ++ (serMembers (ind ++ gap2) kvs2
                      ++ ('\x0a' :: (ind ++ ('\x7d' :: rest))))))))) := by
            rw [skipWs_cons_ws _ _ (by decide), skipWs_ws_head _ _ hind,
              skipWs_ws_head _ _ allWsChars_gap2]
            rw [show serMember (ind ++ gap2) k v
                  ++ (serMembers (ind ++ gap2) kvs2 ++ ('\x0a' :: (ind ++ ('\x7d' :: rest))))
                = '\x22' :: (escapeList k.data ++ ('\x22' :: (':' :: (' '
                    :: (serValue (ind ++ gap2) v ++ (serMembers (ind ++ gap2) kvs2
                        ++ ('\x0a' :: (ind ++ ('\x7d' :: rest))))))))) from by
              simp [serMember, quoteChars]]
            exact skipWs_nonws _ _ (by decide)
          rw [hshape,
            parseVal_obj_step fuel _ _ '\x22' _ (skipWs_nonws _ _ (by decide)) h1 (by decide)]
          rw [show ('\x22' :: (escapeList k.data ++ ('\x22' :: (':' :: (' '
                  :: (serValue (ind ++ gap2) v ++ (serMembers (ind ++ gap2) kvs2
                      ++ ('\x0a' :: (ind ++ ('\x7d' :: rest))))))))))
              = serMember (ind ++ gap2) k v ++ (serMembers (ind ++ gap2) kvs2
                  ++ ('\x0a' :: (ind ++ ('\x7d' :: rest)))) from by
            simp [serMember, quoteChars]]
          have key := ih3 [] k v kvs2 JsonMembers.nil ind (ind ++ gap2) rest
            allWsChars_nil hind hind2 hsz2
          rw [List.nil_append] at key
          rw [key]
          rfl
    · -- parseElems on a serialized element tail
      intro w x xs acc ind ind2 rest hw hind hind2 hsz
      have hszx : sizeJ x ≤ fuel := by omega
      have hnd := notDigitStart_elems ind2 xs (ind ++ (']' :: rest))
      have hpv : parseVal fuel (w ++ (serValue ind2 x
              ++ (serElems ind2 xs ++ ('\x0a' :: (ind ++ (']' :: rest))))))
          = some (x, serElems ind2 xs ++ ('\x0a' :: (ind ++ (']' :: rest)))) := by
        rw [parseVal_ws_head fuel w _ hw]
        exact ih1 x ind2 _ hind2 hnd hszx
      cases xs with
      | nil =>
        have hsk : skipWs (serElems ind2 JsonList.nil ++ ('\x0a' :: (ind ++ (']' :: rest))))
            = ']' :: rest := by
          rw [show serElems ind2 JsonList.nil ++ ('\x0a' :: (ind ++ (']' :: rest)))
                = '\x0a' :: (ind ++ (']' :: rest)) from by simp [serElems]]
          rw [skipWs_cons_ws _ _ (by decide), skipWs_ws_head _ _ hind]
          exact skipWs_nonws _ _ (by decide)
        rw [parseElems_step_rb fuel acc _ x _ rest hpv hsk, jlAppend_concat]
      | cons x2 xs2 =>
        have hsk : skipWs (serElems ind2 (JsonList.cons x2 xs2)
                ++ ('\x0a' :: (ind ++ (']' :: rest))))
            = ',' :: (('\x0a' :: ind2) ++ (serValue ind2 x2
                ++ (serElems ind2 xs2 ++ ('\x0a' :: (ind ++ (']' :: rest)))))) := by
          rw [show serElems ind2 (JsonList.cons x2 xs2) ++ ('\x0a' :: (ind ++ (']' :: rest)))
                = ',' :: (('\x0a' :: ind2) ++ (serValue ind2 x2
                    ++ (serElems ind2 xs2 ++ ('\x0a' :: (ind ++ (']' :: rest)))))) from by
            simp [serElems]]
          exact skipWs_nonws _ _ (by decide)
        rw [parseElems_step_comma fuel acc _ x _ _ hpv hsk]
        have hw2 : allWsChars ('\x0a' :: ind2) := allWsChars_cons _ _ (by decide) hind2
        have hsz3 : sizeJ x2 + sizeJL xs2 + 1 ≤ fuel := by
          rw [show sizeJL (JsonList.cons x2 xs2) = 1 + sizeJ x2 + sizeJL xs2 from by
            simp [sizeJL]] at hsz
          have := sizeJ_pos x
          omega
        have key := ih2 ('\x0a' :: ind2) x2 xs2 (jlAppend acc x) ind ind2 rest
          hw2 hind hind2 hsz3
        rw [key, jlConcat_append]
    · -- parseMembers on a serialized member tail
      intro w k v kvs acc ind ind2 rest hw hind hind2 hsz
      have hszv : sizeJ v ≤ fuel := by omega
      have hnd := notDigitStart_members ind2 kvs (ind ++ ('\x7d' :: rest))
      have h1 : skipWs (w ++ (serMember ind2 k v ++ (serMembers ind2 kvs
              ++ ('\x0a' :: (ind ++ ('\x7d' :: rest))))))
          = '\x22' :: (escapeList k.data ++ ('\x22' :: (':' :: (' ' :: (serValue ind2 v
              ++ (serMembers ind2 kvs ++ ('\x0a' :: (ind ++ ('\x7d' :: rest))))))))) := by
        rw [skipWs_ws_head _ _ hw]
        rw [show serMember ind2 k v ++ (serMembers ind2 kvs
                ++ ('\x0a' :: (ind ++ ('\x7d' :: rest))))
              = '\x22' :: (escapeList k.data ++ ('\x22' :: (':' :: (' ' :: (serValue ind2 v
                  ++ (serMembers ind2 kvs ++ ('\x0a' :: (ind ++ ('\x7d' :: rest))))))))) from by
          simp [serMember, quoteChars]]
        exact skipWs_nonws _ _ (by decide)
      have h2 := escapeList_parse k.data (':' :: (' ' :: (serValue ind2 v
          ++ (serMembers ind2 kvs ++ ('\x0a' :: (ind ++ ('\x7d' :: rest)))))))
      have h3 : skipWs (':' :: (' ' :: (serValue ind2 v
              ++ (serMembers ind2 kvs ++ ('\x0a' :: (ind ++ ('\x7d' :: rest)))))))
          = ':' :: (' ' :: (serValue ind2 v
              ++ (serMembers ind2 kvs ++ ('\x0a' :: (ind ++ ('\x7d' :: rest)))))) :=
        skipWs_nonws _ _ (by decide)
      have h4 : parseVal fuel (' ' :: (serValue ind2 v
              ++ (serMembers ind2 kvs ++ ('\x0a' :: (ind ++ ('\x7d' :: rest))))))
          = some (v, serMembers ind2 kvs ++ ('\x0a' :: (ind ++ ('\x7d' :: rest)))) := by
        rw [show (' ' :: (serValue ind2 v ++ (serMembers ind2 kvs
                ++ ('\x0a' :: (ind ++ ('\x7d' :: rest))))))
              = [' '] ++ (serValue ind2 v ++ (serMembers ind2 kvs
                ++ ('\x0a' :: (ind ++ ('\x7d' :: rest))))) from rfl]
        rw [parseVal_ws_head fuel [' '] _ (allWsChars_cons ' ' [] (by decide) allWsChars_nil)]
        exact ih1 v ind2 _ hind2 hnd hszv
      cases kvs with
      | nil =>
        have h5 : skipWs (serMembers ind2 JsonMembers.nil
                ++ ('\x0a' :: (ind ++ ('\x7d' :: rest))))
            = '\x7d' :: rest := by
          rw [show serMembers ind2 JsonMembers.nil ++ ('\x0a' :: (ind ++ ('\x7d' :: rest)))
                = '\x0a' :: (ind ++ ('\x7d' :: rest)) from by simp [serMembers]]
          rw [skipWs_cons_ws _ _ (by decide), skipWs_ws_head _ _ hind]
          exact skipWs_nonws _ _ (by decide)
        rw [parseMembers_step_rcb fuel acc _ _ _ _ _ _ k.data v h1 h2 h3 h4 h5]
        rw [string_mk_data, jmAppend_concat]
      | cons k2 v2 kvs2 =>
        have h5 : skipWs (serMembers ind2 (JsonMembers.cons k2 v2 kvs2)
                ++ ('\x0a' :: (ind ++ ('\x7d' :: rest))))
            = ',' :: (('\x0a' :: ind2) ++ (serMember ind2 k2 v2 ++ (serMembers ind2 kvs2
                ++ ('\x0a' :: (ind ++ ('\x7d' :: rest)))))) := by
          rw [show serMembers ind2 (JsonMembers.cons k2 v2 kvs2)
                  ++ ('\x0a' :: (ind ++ ('\x7d' :: rest)))
                = ',' :: (('\x0a' :: ind2) ++ (serMember ind2 k2 v2 ++ (serMembers ind2 kvs2
                    ++ ('\x0a' :: (ind ++ ('\x7d' :: rest)))))) from by
            simp [serMembers, serMember]]
          exact skipWs_nonws _ _ (by decide)
        rw [parseMembers_step_comma fuel acc _ _ _ _ _ _ k.data v h1 h2 h3 h4 h5]
        have hw2 : allWsChars ('\x0a' :: ind2) := allWsChars_cons _ _ (by decide) hind2
        have hsz3 : sizeJ v2 + sizeJM kvs2 + 1 ≤ fuel := by
          rw [show sizeJM (JsonMembers.cons k2 v2 kvs2) = 1 + sizeJ v2 + sizeJM kvs2 from by
            simp [sizeJM]] at hsz
          have := sizeJ_pos v
          omega
        have key := ih3 ('\x0a' :: ind2) k2 v2 kvs2 (jmAppend acc (String.mk k.data) v)
          ind ind2 rest hw2 hind hind2 hsz3
        rw [key, string_mk_data, jmConcat_append]

mutual

theorem sizeJ_le_len : ∀ (ind : List Char) (j : Json), sizeJ j ≤ (serValue ind j).length
  | ind, .null => by
      rw [show serValue ind Json.null = ("null").data from rfl]
      decide
  | ind, .bool true => by
      rw [show serValue ind (Json.bool true) = ("true").data from rfl]
      decide
  | ind, .bool false => by
      rw [show serValue ind (Json.bool false) = ("false").data from rfl]
      decide
  | ind, .num n => by
      by_cases hn : n < 0
      · simp [sizeJ, serValue, intChars, hn]
      · rcases natDigits_head n.toNat with ⟨c, cs, heq, _⟩
        simp [sizeJ, serValue, intChars, hn, heq]
  | ind, .str s => by simp [sizeJ, serValue, quoteChars]
  | _, .arr .nil => by simp [sizeJ, sizeJL, serValue]
  | ind, .arr (.cons x xs) => by
      have h1 := sizeJ_le_len (ind ++ gap2) x
      have h2 := sizeJL_le_len (ind ++ gap2) xs
      simp [sizeJ, sizeJL, serValue]
      omega
  | _, .obj .nil => by simp [sizeJ, sizeJM, serValue]
  | ind, .obj (.cons k v kvs) => by
      have h1 := sizeJ_le_len (ind ++ gap2) v
      have h2 := sizeJM_le_len (ind ++ gap2) kvs
      simp [sizeJ, sizeJM, serValue]
      omega
termination_by structural ind j => j

theorem sizeJL_le_len : ∀ (ind : List Char) (xs : JsonList),
    sizeJL xs ≤ (serElems ind xs).length
  | _, .nil => by simp [sizeJL, serElems]
  | ind, .cons x xs => by
      have h1 := sizeJ_le_len ind x
      have h2 := sizeJL_le_len ind xs
      simp [sizeJL, serElems]
      omega
termination_by structural ind xs => xs

theorem sizeJM_le_len : ∀ (ind : List Char) (kvs : JsonMembers),
    sizeJM kvs ≤ (serMembers ind kvs).length
  | _, .nil => by simp [sizeJM, serMembers]
  | ind, .cons k v kvs => by
      have h1 := sizeJ_le_len ind v
      have h2 := sizeJM_le_len ind kvs
      simp [sizeJM, serMembers]
      omega
termination_by structural ind kvs => kvs

end

/-- Top-level round-trip: `JSON.parse` applied to
`JSON.stringify(j, null, 2)` recovers `j` exactly. -/
theorem parse_stringify2 (j : Json) : Json.parse (stringify2 j) = some j := by
  have hsz : sizeJ j ≤ (serValue [] j).length + 1 :=
    Nat.le_succ_of_le (sizeJ_le_len [] j)
  have hmain := (parse_serValue ((serValue [] j).length + 1)).1 j [] []
    allWsChars_nil trivial hsz
  rw [List.append_nil] at hmain
  have hd : (stringify2 j).data = serValue [] j := rfl
  rw [Json.parse.eq_def, hd, hmain]
  simp [skipWs]

/-- C6: round-trip — for a session with at least one stored record,
`exportSession` downloads the artifact
`JSON.stringify(events.map(e => e.data), null, 2)` holding exactly the
session's payloads (storage metadata dropped) in ascending-id (capture)
order, and `JSON.parse` of that artifact yields that same array of
payloads, field for field. -/
theorem c6_export_roundtrip (m : MState) (st : EventsStore) (s today : String)
    (hdb : m.db = some st) (hready : m.isReady = true)
    (hsorted : List.Pairwise (fun a b => a.id < b.id) st.records)
    (hne : st.records.filter (fun r => sessionMatches r.sessionId s) ≠ []) :
    exportSession m s today
        = ExportOutcome.downloaded (exportFilename s today)
            (stringify2 (Json.arr (toJsonList
              ((st.records.filter (fun r => sessionMatches r.sessionId s)).map
                (fun r => r.data)))))
      ∧ Json.parse (stringify2 (Json.arr (toJsonList
              ((st.records.filter (fun r => sessionMatches r.sessionId s)).map
                (fun r => r.data)))))
          = some (Json.arr (toJsonList
              ((st.records.filter (fun r => sessionMatches r.sessionId s)).map
                (fun r => r.data)))) := by
  have hfiltered : List.Pairwise (fun a b => a.id < b.id)
      (st.records.filter (fun r => sessionMatches r.sessionId s)) :=
    hsorted.sublist (List.filter_sublist _)
  have hq : getEventsBySession m s
      = some (st.records.filter (fun r => sessionMatches r.sessionId s)) := by
    unfold getEventsBySession
    rw [hdb, hready]
    simp [storeIndexGetAll, sortById_eq_of_sorted _ hfiltered]
  constructor
  · unfold exportSession
    rw [hq]
    simp [List.length_eq_zero, hne]
  · exact parse_stringify2 _

/-- C6 witness: a ready manager over a two-record store of session `s1`
satisfies the hypotheses, and the theorem yields its download and
round-trip for it. -/
theorem c6_export_roundtrip_witness :
    exportSession c6M ("s1") ("2026-01-02")
        = ExportOutcome.downloaded (exportFilename ("s1") ("2026-01-02"))
            (stringify2 (Json.arr (toJsonList
              ((c6Store.records.filter
                  (fun r => sessionMatches r.sessionId ("s1"))).map
                (fun r => r.data)))))
      ∧ Json.parse (stringify2 (Json.arr (toJsonList
              ((c6Store.records.filter
                  (fun r => sessionMatches r.sessionId ("s1"))).map
                (fun r => r.data)))))
          = some (Json.arr (toJsonList
              ((c6Store.records.filter
                  (fun r => sessionMatches r.sessionId ("s1"))).map
                (fun r => r.data)))) :=
  c6_export_roundtrip c6M c6Store ("s1") ("2026-01-02") rfl rfl
    (by decide) (by decide)
